import Mathlib

/-!
Verification development for the raterunner CLI's reconciliation engine.

The Go sources are embedded shallowly: pure helpers become Lean functions,
the Stripe remote side becomes an explicit state (`St`) threaded through the
sync / truncate operations, Go `any`-typed YAML values become small closed
inductives, Go maps become association lists, and Go string identifiers of
remote resources become `Nat` ids drawn from a fresh-id counter.  Remote
calls are modelled as always succeeding, except for the "already exists"
conflict on coupon / promotion-code creation which the source explicitly
handles.
-/

set_option linter.unusedVariables false

namespace Raterunner

/-! ## Go dynamic values

`up_to` of a price tier (`internal/config/billing.go`, `GetTierUpTo`) is a
Go `any`: after YAML decoding it is an `int`, a `float64`, a `string` or
some other shape.  Floats are modelled as rationals; `int64(f)` truncates
toward zero. -/

inductive UpToVal where
  | intV (n : Int)
  | floatV (q : Rat)
  | strV (s : String)
  | otherV
  deriving DecidableEq, Repr

/-- Go conversion `int64(f)` for a `float64` value: truncation toward zero. -/
def goTrunc (q : Rat) : Int := Int.tdiv q.num (Int.ofNat q.den)

/-- Values of a promotion's `duration` field (`any`: nil, a string, or a
`map[string]any` whose `months` entry is numeric). -/
inductive NumVal where
  | intV (n : Int)
  | floatV (q : Rat)
  | otherV
  deriving DecidableEq, Repr

inductive DurVal where
  | nullV
  | strV (s : String)
  | objV (fields : List (String × NumVal))
  | otherV
  deriving DecidableEq, Repr

/-- Values of the `metadata` / `limits` / `grants` maps in the typed config
model; the verified code only ever asks whether such a value is a string. -/
inductive MetaVal where
  | strV (s : String)
  | otherV
  deriving DecidableEq, Repr

/-! ## String helpers -/

/-- Go `strings.ToLower`, as a character map (kernel-evaluable form of
`String.toLower`). -/
def toLowerStr (s : String) : String := String.mk (s.data.map Char.toLower)

/-- Go `strings.TrimSuffix`: drop the suffix when present. -/
def trimSuffixStr (s suf : String) : String :=
  if suf.data.isSuffixOf s.data then
    String.mk (s.data.take (s.data.length - suf.data.length))
  else s

/-- `normalizeName` from `internal/stripe/fetch.go`: lowercase, replace
spaces and hyphens with underscore, strip a trailing `_plan`.  The two
`strings.ReplaceAll` calls have single-character patterns, so they are
character maps. -/
def normalizeName (name : String) : String :=
  let cs := name.data.map Char.toLower
  let cs := cs.map (fun c => if c = ' ' then '_' else c)
  let cs := cs.map (fun c => if c = '-' then '_' else c)
  trimSuffixStr (String.mk cs) "_plan"

/-- Go `filepath.Ext`: the suffix beginning at the final dot in the final
slash-separated element of the path; empty if there is no dot. -/
def filepathExt (p : String) : String :=
  let revTail := p.data.reverse.takeWhile (fun c => c ≠ '/')
  if revTail.contains '.' then
    String.mk ((revTail.takeWhile (fun c => c ≠ '.') ++ ['.']).reverse)
  else ""

/-! ## Catalog model (`internal/config/billing.go`) -/

structure PriceTier where
  upTo : UpToVal
  amount : Int
  flat : Int
  deriving DecidableEq, Repr

structure Price where
  amount : Int
  currencyPrices : List (String × Int) := []
  perUnit : Int := 0
  unit : String := ""
  minQ : Int := 0
  maxQ : Int := 0
  included : Int := 0
  tiers : List PriceTier := []
  mode : String := ""
  deriving DecidableEq, Repr

/-- `Price.PriceType`: tiers present beats per-unit beats flat. -/
def Price.priceType (p : Price) : String :=
  if p.tiers.length > 0 then "tiered"
  else if p.perUnit > 0 then "per_unit"
  else "flat"

/-- `PriceTier.GetTierUpTo`: the `up_to` value as an int, `-1` for the
string `"unlimited"`, `0` for any unhandled shape. -/
def PriceTier.getTierUpTo (t : PriceTier) : Int :=
  match t.upTo with
  | .intV n => n
  | .floatV q => goTrunc q
  | .strV s => if s = "unlimited" then -1 else 0
  | .otherV => 0

structure Entitlement where
  etype : String := ""
  unit : String := ""
  description : String := ""
  deriving DecidableEq, Repr

structure Plan where
  id : String
  name : String
  description : String := ""
  headline : String := ""
  ptype : String := ""
  billingModel : String := ""
  providers : List String := []
  trialDays : Int := 0
  prices : List (String × Price) := []
  limits : List (String × MetaVal) := []
  features : List String := []
  upgradesTo : List String := []
  metadata : List (String × MetaVal) := []
  deriving DecidableEq, Repr

/-- `Plan.EffectiveProviders`: a plan's own list, else the global one. -/
def Plan.effectiveProviders (p : Plan) (globalProviders : List String) : List String :=
  if p.providers.length > 0 then p.providers else globalProviders

/-- `Plan.HasProvider`. -/
def Plan.hasProvider (p : Plan) (provider : String) (globalProviders : List String) : Bool :=
  (p.effectiveProviders globalProviders).any (fun pr => pr == provider)

structure Addon where
  id : String
  name : String
  price : Price
  grants : List (String × MetaVal) := []
  deriving DecidableEq, Repr

structure PromotionDiscount where
  percent : Int := 0
  fixed : Int := 0
  deriving DecidableEq, Repr

structure Promotion where
  code : String
  description : String := ""
  discount : PromotionDiscount
  duration : DurVal := .nullV
  appliesTo : List String := []
  newCustomersOnly : Bool := false
  maxUses : Int := 0
  expires : String := ""
  active : Option Bool := none
  deriving DecidableEq, Repr

/-- `Promotion.GetDurationMonths`: months of a repeating duration, `0` for
"once" (the default), `-1` for "forever". -/
def Promotion.getDurationMonths (p : Promotion) : Int :=
  match p.duration with
  | .nullV => 0
  | .strV d => if d = "forever" then -1 else 0
  | .objV fields =>
    match (fields.find? (fun kv => kv.1 == "months")).map (fun kv => kv.2) with
    | some (NumVal.intV m) => m
    | some (NumVal.floatV m) => goTrunc m
    | _ => 0
  | .otherV => 0

/-- `Promotion.IsActive`: defaults to true when the field is absent. -/
def Promotion.isActive (p : Promotion) : Bool :=
  match p.active with
  | none => true
  | some b => b

structure Settings where
  currency : String := ""
  trialDays : Int := 0
  graceDays : Int := 0
  deriving DecidableEq, Repr

structure BillingConfig where
  version : Int := 1
  providers : List String := []
  settings : Option Settings := none
  entitlements : List (String × Entitlement) := []
  plans : List Plan := []
  addons : List Addon := []
  promotions : List Promotion := []
  deriving DecidableEq, Repr

/-! ## Remote snapshot model (`internal/stripe/fetch.go`)

`Product` / `ProductPrice` are the fetched views the Matcher, Differ and
Reconciler consume.  Remote ids are modelled as `Nat`. -/

structure ProductPrice where
  id : Nat
  interval : String
  amount : Int
  currency : String
  active : Bool
  deriving DecidableEq, Repr

structure Product where
  id : Nat
  name : String
  planCode : String
  billingModel : String
  active : Bool
  prices : List ProductPrice
  deriving DecidableEq, Repr

/-- `MatchProduct`: first active product whose `plan_code` metadata equals
the plan id, else first active product whose normalized name equals the
normalized plan id, else none.  `planName` is accepted but unused, as in
the source. -/
def MatchProduct (products : List Product) (planID planName : String) : Option Product :=
  match products.find? (fun p => p.active && p.planCode == planID) with
  | some p => some p
  | none =>
    let normalizedPlanID := normalizeName planID
    products.find? (fun p => p.active && normalizeName p.name == normalizedPlanID)

/-! ## Differ (`internal/diff/diff.go`)

`ComparedAt` is `time.Now()` in the source; the embedding takes the
formatted timestamp as an explicit argument. -/

inductive Status where
  | ok
  | differs
  | missing
  deriving DecidableEq, Repr

structure PriceDiff where
  interval : String
  localAmount : Int
  stripeAmount : Int
  status : Status
  deriving DecidableEq, Repr

structure PlanDiff where
  planID : String
  planName : String
  status : Status
  details : String
  prices : List PriceDiff
  deriving DecidableEq, Repr

structure Summary where
  total : Nat := 0
  synced : Nat := 0
  missing : Nat := 0
  differs : Nat := 0
  deriving DecidableEq, Repr

structure DiffResult where
  environment : String
  comparedAt : String
  plans : List PlanDiff
  summary : Summary
  deriving DecidableEq, Repr

/-- `findPrice`: the first price with the given interval that is active. -/
def findPrice (prices : List ProductPrice) (interval : String) : Option ProductPrice :=
  prices.find? (fun p => p.interval == interval && p.active)

/-- One step of `comparePlan`'s loop over the plan's price intervals:
extends the accumulated `(priceDiffs, differDetails)` pair. -/
def comparePriceStep (productPrices : List ProductPrice)
    (acc : List PriceDiff × List String) (kv : String × Price) :
    List PriceDiff × List String :=
  let interval := kv.1
  let localPrice := kv.2
  let la := localPrice.amount
  match findPrice productPrices interval with
  | none =>
    (acc.1 ++ [{ interval := interval, localAmount := la, stripeAmount := 0,
                 status := .missing }],
     acc.2 ++ [s!"{interval}: missing in Stripe"])
  | some stripePrice =>
    let sa := stripePrice.amount
    if la = sa then
      (acc.1 ++ [{ interval := interval, localAmount := la, stripeAmount := sa,
                   status := .ok }],
       acc.2)
    else
      (acc.1 ++ [{ interval := interval, localAmount := la, stripeAmount := sa,
                   status := .differs }],
       acc.2 ++ [s!"{interval}: local={la} stripe={sa}"])

/-- `comparePlan`: missing when no product matches, ok when no price
difference was recorded, differs otherwise. -/
def comparePlan (plan : Plan) (products : List Product) : PlanDiff :=
  match MatchProduct products plan.id plan.name with
  | none =>
    { planID := plan.id, planName := plan.name, status := .missing,
      details := "Not in Stripe", prices := [] }
  | some product =>
    let folded := plan.prices.foldl (comparePriceStep product.prices) ([], [])
    let priceDiffs := folded.1
    let differDetails := folded.2
    if differDetails.length > 0 then
      { planID := plan.id, planName := plan.name, status := .differs,
        details := String.intercalate ", " differDetails, prices := priceDiffs }
    else
      { planID := plan.id, planName := plan.name, status := .ok,
        details := "", prices := priceDiffs }

/-- One step of `Compare`'s loop: plans not targeting stripe are skipped;
otherwise the plan's diff is appended and the counters bumped. -/
def compareStep (products : List Product) (cfgProviders : List String)
    (r : DiffResult) (plan : Plan) : DiffResult :=
  if !(plan.hasProvider "stripe" cfgProviders) then r
  else
    let planDiff := comparePlan plan products
    let s := r.summary
    let s :=
      match planDiff.status with
      | .ok => { s with synced := s.synced + 1 }
      | .missing => { s with missing := s.missing + 1 }
      | .differs => { s with differs := s.differs + 1 }
    { r with plans := r.plans ++ [planDiff],
             summary := { s with total := s.total + 1 } }

/-- `Compare`: the local catalog against the fetched products. -/
def Compare (cfg : BillingConfig) (products : List Product)
    (env comparedAt : String) : DiffResult :=
  cfg.plans.foldl (compareStep products cfg.providers)
    { environment := env, comparedAt := comparedAt, plans := [], summary := {} }

/-- `DiffResult.HasDifferences`. -/
def DiffResult.hasDifferences (r : DiffResult) : Bool :=
  r.summary.missing > 0 || r.summary.differs > 0

/-! ## Remote state (the Stripe side as a pure state)

`St` is the remote account: products, prices, coupons and promotion codes,
plus a fresh-id counter standing in for Stripe's id generation.  Remote
calls always succeed except for the "resource already exists" conflict on
coupon / promotion-code creation, the one remote error the source handles
specially. -/

structure RRecurring where
  interval : String
  intervalCount : Option Int := none
  trialPeriodDays : Option Int := none
  usageType : Option String := none
  deriving DecidableEq, Repr

structure RTier where
  upTo : Option Int := none
  upToInf : Bool := false
  unitAmount : Option Int := none
  flatAmount : Option Int := none
  deriving DecidableEq, Repr

structure RPrice where
  id : Nat
  productId : Nat
  unitAmount : Option Int := none
  currency : String
  active : Bool
  recurring : Option RRecurring := none
  billingScheme : Option String := none
  tiersMode : Option String := none
  tiers : List RTier := []
  deriving DecidableEq, Repr

structure RProduct where
  id : Nat
  name : String
  description : Option String := none
  metadata : List (String × String) := []
  marketingFeatures : List String := []
  active : Bool
  deriving DecidableEq, Repr

structure RCoupon where
  id : String
  percentOff : Option Int := none
  amountOff : Option Int := none
  currency : Option String := none
  duration : String
  durationInMonths : Option Int := none
  maxRedemptions : Option Int := none
  deriving DecidableEq, Repr

structure RPromoCode where
  coupon : String
  code : String
  firstTimeTransaction : Bool := false
  deriving DecidableEq, Repr

structure St where
  products : List RProduct := []
  prices : List RPrice := []
  coupons : List RCoupon := []
  promoCodes : List RPromoCode := []
  nextId : Nat := 0
  deriving DecidableEq, Repr

def emptySt : St := {}

/-- Lookup in a Go string map modelled as an association list. -/
def lookupMeta (m : List (String × String)) (k : String) : Option String :=
  (m.find? (fun kv => kv.1 == k)).map (fun kv => kv.2)

/-- Go map assignment `m[k] = v`: overwrite semantics on the association
list. -/
def insertKV (m : List (String × String)) (k v : String) : List (String × String) :=
  (m.filter (fun kv => kv.1 != k)) ++ [(k, v)]

/-! ### Remote operations -/

def createProduct (st : St) (name : String) (description : Option String)
    (metadata : List (String × String)) (features : List String) : Nat × St :=
  let pid := st.nextId
  (pid,
   { st with
     products := st.products ++
       [{ id := pid, name := name, description := description,
          metadata := metadata, marketingFeatures := features, active := true }],
     nextId := st.nextId + 1 })

def createPrice (st : St) (productId : Nat) (unitAmount : Option Int)
    (currency : String) (recurring : Option RRecurring)
    (billingScheme tiersMode : Option String) (tiers : List RTier) : Nat × St :=
  let pid := st.nextId
  (pid,
   { st with
     prices := st.prices ++
       [{ id := pid, productId := productId, unitAmount := unitAmount,
          currency := currency, active := true, recurring := recurring,
          billingScheme := billingScheme, tiersMode := tiersMode, tiers := tiers }],
     nextId := st.nextId + 1 })

/-- `price.Update(id, {Active: false})`: archive, never delete. -/
def deactivatePrice (st : St) (priceId : Nat) : St :=
  { st with
    prices := st.prices.map fun p =>
      if p.id == priceId then { p with active := false } else p }

/-- `product.Update(id, {Active: false})`. -/
def deactivateProduct (st : St) (productId : Nat) : St :=
  { st with
    products := st.products.map fun p =>
      if p.id == productId then { p with active := false } else p }

/-! ### Fetch (`FetchProductsWithPrices`)

Product listing is filtered to active products server-side; price listing
per product is unfiltered.  A recurring price's interval is rendered
`"monthly"` / `"yearly"` for month / year, the raw interval string
otherwise, and `""` for a one-time price. -/

def fetchInterval (rec : Option RRecurring) : String :=
  match rec with
  | none => ""
  | some r =>
    if r.interval = "month" then "monthly"
    else if r.interval = "year" then "yearly"
    else r.interval

def toProductPrice (p : RPrice) : ProductPrice :=
  { id := p.id, interval := fetchInterval p.recurring,
    amount := p.unitAmount.getD 0, currency := p.currency, active := p.active }

def fetchPricesForProduct (st : St) (productID : Nat) : List ProductPrice :=
  (st.prices.filter (fun p => p.productId == productID)).map toProductPrice

def toFetchedProduct (st : St) (p : RProduct) : Product :=
  { id := p.id, name := p.name,
    planCode := (lookupMeta p.metadata "plan_code").getD "",
    billingModel := (lookupMeta p.metadata "billing_model").getD "",
    active := p.active,
    prices := fetchPricesForProduct st p.id }

def fetchProductsWithPrices (st : St) : List Product :=
  (st.products.filter (fun p => p.active)).map (toFetchedProduct st)

/-! ## Reconciler (`internal/stripe/sync.go`) -/

structure SyncResult where
  productsCreated : Nat := 0
  pricesCreated : Nat := 0
  pricesArchived : Nat := 0
  addonsCreated : Nat := 0
  couponsCreated : Nat := 0
  promosCreated : Nat := 0
  warnings : List String := []
  deriving DecidableEq, Repr

/-- The metadata map built for a newly created plan product: `plan_code`,
then optional `headline` and `plan_type`, then the plan's custom metadata
entries whose values are strings (map overwrite semantics). -/
def buildPlanMetadata (plan : Plan) : List (String × String) :=
  let m := [("plan_code", plan.id)]
  let m := if plan.headline ≠ "" then insertKV m "headline" plan.headline else m
  let m := if plan.ptype ≠ "" then insertKV m "plan_type" plan.ptype else m
  plan.metadata.foldl
    (fun m kv =>
      match kv.2 with
      | .strV s => insertKV m kv.1 s
      | .otherV => m)
    m

/-- Translation of one local tier into Stripe tier params: `-1` becomes the
open-ended tier, a positive flat fee suppresses the per-unit amount, and
otherwise the per-unit amount is set even when zero. -/
def mkTierParam (tier : PriceTier) : RTier :=
  let upTo := tier.getTierUpTo
  let base : RTier := if upTo = -1 then { upToInf := true } else { upTo := some upTo }
  if tier.flat > 0 then { base with flatAmount := some tier.flat }
  else { base with unitAmount := some tier.amount }

/-- The recurring part of the price params: monthly is 1 month, quarterly a
3-month step, yearly 1 year, anything else (other than `""` / `"one_time"`)
a hard error; a positive trial is attached, and per-unit prices use
licensed usage. -/
def buildRecurring (interval : String) (trialDays : Int) (priceType : String) :
    Except String (Option RRecurring) :=
  if interval != "" && interval != "one_time" then
    match
      (if interval = "monthly" then some ({ interval := "month" } : RRecurring)
       else if interval = "quarterly" then some { interval := "month", intervalCount := some 3 }
       else if interval = "yearly" then some { interval := "year" }
       else none) with
    | none => .error s!"unsupported interval: {interval}"
    | some rec0 =>
      let rec1 := if trialDays > 0 then { rec0 with trialPeriodDays := some trialDays } else rec0
      let rec2 := if priceType = "per_unit" then { rec1 with usageType := some "licensed" } else rec1
      .ok (some rec2)
  else
    .ok none

/-- The tail of `syncPriceAdvanced` once the flat-price conflict handling is
done: build the price params for the price shape and create the price. -/
def createNewPrice (productID : Nat) (interval : String) (localPrice : Price)
    (trialDays : Int) (acc : SyncResult) (st : St) : SyncResult × St × Option String :=
  let priceType := localPrice.priceType
  let unitAmount : Option Int :=
    if priceType = "flat" then some localPrice.amount
    else if priceType = "per_unit" then some localPrice.perUnit
    else none
  let billingScheme : Option String :=
    if priceType = "per_unit" then some "per_unit"
    else if priceType = "tiered" then some "tiered"
    else none
  let tiersMode : Option String :=
    if priceType = "tiered" then
      (if localPrice.mode = "volume" then some "volume" else some "graduated")
    else none
  let tiers : List RTier :=
    if priceType = "tiered" then localPrice.tiers.map mkTierParam else []
  match buildRecurring interval trialDays priceType with
  | .error e => (acc, st, some e)
  | .ok recurring =>
    let created := createPrice st productID unitAmount "usd" recurring billingScheme tiersMode tiers
    ({ acc with pricesCreated := acc.pricesCreated + 1 }, created.2, none)

/-- The warning text emitted for a flat-price conflict, naming both the
local and the remote amount. -/
def conflictWarning (planID interval : String) (la ra : Int) : String :=
  s!"plan '{planID}' {interval}: price differs (local={la}, stripe={ra}), archiving old and creating new"

/-- One archive step of the flat-price conflict loop. -/
def archiveConflictStep (planID interval : String) (localAmount : Int)
    (accst : SyncResult × St) (p : ProductPrice) : SyncResult × St :=
  if p.interval == interval && p.active && p.amount != localAmount then
    ({ accst.1 with
       warnings := accst.1.warnings ++ [conflictWarning planID interval localAmount p.amount],
       pricesArchived := accst.1.pricesArchived + 1 },
     deactivatePrice accst.2 p.id)
  else accst

/-- `syncPriceAdvanced`: for a flat price, an exact active match is a no-op
and conflicting active prices are warned about and archived before a new
price is created; per-unit and tiered prices are always created. -/
def syncPriceAdvanced (productID : Nat) (planID interval : String)
    (localPrice : Price) (trialDays : Int) (existingPrices : List ProductPrice)
    (acc : SyncResult) (st : St) : SyncResult × St × Option String :=
  let priceType := localPrice.priceType
  if priceType = "flat" then
    if existingPrices.any
        (fun p => p.interval == interval && p.amount == localPrice.amount && p.active) then
      (acc, st, none)
    else
      let archived :=
        existingPrices.foldl (archiveConflictStep planID interval localPrice.amount) (acc, st)
      createNewPrice productID interval localPrice trialDays archived.1 archived.2
  else
    createNewPrice productID interval localPrice trialDays acc st

/-- Early-stopping fold threading the result accumulator and the remote
state, aborting on the first error as `Sync`'s loops do. -/
def foldStop {α : Type} (f : α → SyncResult → St → SyncResult × St × Option String) :
    List α → SyncResult → St → SyncResult × St × Option String
  | [], acc, st => (acc, st, none)
  | x :: xs, acc, st =>
    match f x acc st with
    | (acc', st', some e) => (acc', st', some e)
    | (acc', st', none) => foldStop f xs acc' st'

def planNameWarning (planID planName stripeName : String) : String :=
  s!"plan '{planID}': product name differs (local='{planName}', stripe='{stripeName}'), not updating"

/-- `syncPlan`: match (warning on a name mismatch, never renaming) or create
the product, then sync every declared price interval. -/
def syncPlan (plan : Plan) (existingProducts : List Product)
    (acc : SyncResult) (st : St) : SyncResult × St × Option String :=
  let withProduct :=
    match MatchProduct existingProducts plan.id plan.name with
    | some existingProduct =>
      let acc :=
        if existingProduct.name != plan.name then
          { acc with warnings := acc.warnings ++
              [planNameWarning plan.id plan.name existingProduct.name] }
        else acc
      (existingProduct.id, existingProduct.prices, acc, st)
    | none =>
      let description := if plan.description != "" then some plan.description else none
      let created := createProduct st plan.name description (buildPlanMetadata plan) plan.features
      (created.1, ([] : List ProductPrice),
       { acc with productsCreated := acc.productsCreated + 1 }, created.2)
  let productID := withProduct.1
  let existingPrices := withProduct.2.1
  foldStop
    (fun kv acc st =>
      syncPriceAdvanced productID plan.id kv.1 kv.2 plan.trialDays existingPrices acc st)
    plan.prices withProduct.2.2.1 withProduct.2.2.2

/-- `syncAddon`: addons are one-time-price products tagged `addon_code`; an
active one-time price at the exact amount is a no-op, otherwise a one-time
price is always created (creating the product first when unmatched). -/
def syncAddon (addon : Addon) (existingProducts : List Product)
    (acc : SyncResult) (st : St) : SyncResult × St × Option String :=
  match MatchProduct existingProducts addon.id addon.name with
  | some existingProduct =>
    if existingProduct.prices.any
        (fun p => p.interval == "" && p.amount == addon.price.amount && p.active) then
      (acc, st, none)
    else
      let created := createPrice st existingProduct.id (some addon.price.amount) "usd" none none none []
      ({ acc with pricesCreated := acc.pricesCreated + 1 }, created.2, none)
  | none =>
    let createdProd :=
      createProduct st addon.name none [("addon_code", addon.id), ("type", "addon")] []
    let acc := { acc with addonsCreated := acc.addonsCreated + 1 }
    let created := createPrice createdProd.2 createdProd.1 (some addon.price.amount) "usd" none none none []
    ({ acc with pricesCreated := acc.pricesCreated + 1 }, created.2, none)

/-- `syncPromotion`: inactive promotions are skipped; the coupon and then
the promotion code are created, an "already exists" conflict from either
being downgraded to a warning. -/
def syncPromotion (promo : Promotion) (acc : SyncResult) (st : St) :
    SyncResult × St × Option String :=
  if !promo.isActive then (acc, st, none)
  else
    let pc := promo.code
    let percentOff : Option Int :=
      if promo.discount.percent > 0 then some promo.discount.percent else none
    let amountOff : Option Int :=
      if promo.discount.percent > 0 then none
      else if promo.discount.fixed > 0 then some promo.discount.fixed else none
    let currency : Option String := if amountOff.isSome then some "usd" else none
    let months := promo.getDurationMonths
    let duration := if months = 0 then "once" else if months = -1 then "forever" else "repeating"
    let durationInMonths : Option Int :=
      if months = 0 ∨ months = -1 then none else some months
    let maxRedemptions : Option Int := if promo.maxUses > 0 then some promo.maxUses else none
    if st.coupons.any (fun k => k.id == pc) then
      ({ acc with warnings := acc.warnings ++ [s!"coupon '{pc}' already exists, skipping"] },
       st, none)
    else
      let st :=
        { st with coupons := st.coupons ++
            [({ id := pc, percentOff := percentOff, amountOff := amountOff,
                currency := currency, duration := duration,
                durationInMonths := durationInMonths,
                maxRedemptions := maxRedemptions } : RCoupon)] }
      let acc := { acc with couponsCreated := acc.couponsCreated + 1 }
      if st.promoCodes.any (fun k => k.code == pc) then
        ({ acc with warnings := acc.warnings ++
             [s!"promotion code '{pc}' already exists, skipping"] }, st, none)
      else
        ({ acc with promosCreated := acc.promosCreated + 1 },
         { st with promoCodes := st.promoCodes ++
             [({ coupon := pc, code := pc,
                 firstTimeTransaction := promo.newCustomersOnly } : RPromoCode)] }, none)

/-- One plan of `Sync`'s first loop: a failure is wrapped with the plan id. -/
def planStepFn (existingProducts : List Product) (plan : Plan)
    (acc : SyncResult) (s : St) : SyncResult × St × Option String :=
  match syncPlan plan existingProducts acc s with
  | (acc', s', some e) =>
    let pid := plan.id
    (acc', s', some s!"failed to sync plan '{pid}': {e}")
  | ok => ok

/-- One addon of `Sync`'s second loop. -/
def addonStepFn (existingProducts : List Product) (addon : Addon)
    (acc : SyncResult) (s : St) : SyncResult × St × Option String :=
  match syncAddon addon existingProducts acc s with
  | (acc', s', some e) =>
    let aid := addon.id
    (acc', s', some s!"failed to sync addon '{aid}': {e}")
  | ok => ok

/-- One promotion of `Sync`'s third loop. -/
def promoStepFn (promo : Promotion) (acc : SyncResult) (s : St) :
    SyncResult × St × Option String :=
  match syncPromotion promo acc s with
  | (acc', s', some e) =>
    let pcode := promo.code
    (acc', s', some s!"failed to sync promotion '{pcode}': {e}")
  | ok => ok

/-- `Sync`: fetch the snapshot once, then plans, addons and promotions in
catalog order, aborting on the first error with the partial result. -/
def Sync (cfg : BillingConfig) (st : St) : SyncResult × St × Option String :=
  let existingProducts := fetchProductsWithPrices st
  match foldStop (planStepFn existingProducts) cfg.plans {} st with
  | (acc, st, some e) => (acc, st, some e)
  | (acc, st, none) =>
    match foldStop (addonStepFn existingProducts) cfg.addons acc st with
    | (acc, st, some e) => (acc, st, some e)
    | (acc, st, none) => foldStop promoStepFn cfg.promotions acc st

/-! ## Truncate engine (sandbox-only reset) -/

inductive Env where
  | sandbox
  | production
  deriving DecidableEq, Repr

structure Client where
  env : Env
  deriving DecidableEq, Repr

/-- Remote calls the truncate engine can make, recorded as a trace. -/
inductive RemoteCall where
  | listPrices
  | listProducts
  | listCoupons
  | updatePrice (id : Nat)
  | updateProduct (id : Nat)
  | deleteCoupon (id : String)
  deriving DecidableEq, Repr

structure TruncateResult where
  productsArchived : Nat := 0
  pricesArchived : Nat := 0
  couponsDeleted : Nat := 0
  deriving DecidableEq, Repr

/-- `Truncate`: refuses outside the sandbox environment; otherwise archives
every active price, then every active product, then hard-deletes every
coupon, returning the counts.  The third component is the trace of remote
calls made. -/
def Truncate (c : Client) (st : St) :
    Except String TruncateResult × St × List RemoteCall :=
  if c.env ≠ Env.sandbox then
    (.error "truncate is only allowed in sandbox environment", st, [])
  else
    let activePrices := st.prices.filter (fun p => p.active)
    let st1 := activePrices.foldl (fun s p => deactivatePrice s p.id) st
    let calls1 := RemoteCall.listPrices :: activePrices.map (fun p => RemoteCall.updatePrice p.id)
    let activeProducts := st1.products.filter (fun p => p.active)
    let st2 := activeProducts.foldl (fun s p => deactivateProduct s p.id) st1
    let calls2 := RemoteCall.listProducts :: activeProducts.map (fun p => RemoteCall.updateProduct p.id)
    let coupons := st2.coupons
    let st3 := { st2 with coupons := [] }
    let calls3 := RemoteCall.listCoupons :: coupons.map (fun c => RemoteCall.deleteCoupon c.id)
    (.ok { productsArchived := activeProducts.length,
           pricesArchived := activePrices.length,
           couponsDeleted := coupons.length },
     st3, calls1 ++ calls2 ++ calls3)

/-! ## Validator (`internal/validator/validator.go`)

The semantic check runs over the decoded document (`any` in Go), modelled
as the JSON-shaped value `JVal`.  The external JSON-Schema engine and the
concrete YAML / JSON parsers are collaborators, taken as parameters. -/

inductive JVal where
  | str (s : String)
  | num (q : Rat)
  | boolV (b : Bool)
  | null
  | arr (xs : List JVal)
  | obj (fields : List (String × JVal))
  deriving Repr

def jLookup (fields : List (String × JVal)) (k : String) : Option JVal :=
  (fields.find? (fun kv => kv.1 == k)).map (fun kv => kv.2)

structure ValidationError where
  path : String
  message : String
  detail : String
  deriving DecidableEq, Repr

structure ValidationResult where
  valid : Bool
  errors : List ValidationError
  deriving DecidableEq, Repr

def mkLimitError (i : Nat) (planID key : String) : ValidationError :=
  { path := s!"/plans/{i}/limits/{key}",
    message := s!"undefined entitlement '{key}'",
    detail := s!"plan '{planID}' references entitlement '{key}' which is not defined in the entitlements section" }

def mkGrantError (i : Nat) (addonID key : String) : ValidationError :=
  { path := s!"/addons/{i}/grants/{key}",
    message := s!"undefined entitlement '{key}'",
    detail := s!"addon '{addonID}' grants entitlement '{key}' which is not defined in the entitlements section" }

/-- Errors contributed by one plan entry (index `i`): one per `limits` key
absent from the defined entitlements. -/
def planSemanticErrors (defined : List String) (i : Nat) :
    JVal → List ValidationError
  | .obj planMap =>
    let planID :=
      match jLookup planMap "id" with
      | some (.str id) => id
      | _ => "unknown"
    match jLookup planMap "limits" with
    | some (.obj limits) =>
      ((limits.map (fun kv => kv.1)).filter (fun key => !defined.contains key)).map
        (fun key => mkLimitError i planID key)
    | _ => []
  | _ => []

/-- Errors contributed by one addon entry (index `i`): one per `grants` key
absent from the defined entitlements. -/
def addonSemanticErrors (defined : List String) (i : Nat) :
    JVal → List ValidationError
  | .obj addonMap =>
    let addonID :=
      match jLookup addonMap "id" with
      | some (.str id) => id
      | _ => "unknown"
    match jLookup addonMap "grants" with
    | some (.obj grants) =>
      ((grants.map (fun kv => kv.1)).filter (fun key => !defined.contains key)).map
        (fun key => mkGrantError i addonID key)
    | _ => []
  | _ => []

/-- `validateBillingSemantics`: every `limits` / `grants` key must name a
defined entitlement; the whole check is skipped when no entitlements are
declared.  Errors are collected across all plans and addons, never
short-circuited. -/
def validateBillingSemantics : JVal → List ValidationError
  | .obj root =>
    let definedEntitlements : List String :=
      match jLookup root "entitlements" with
      | some (.obj entitlements) => entitlements.map (fun kv => kv.1)
      | _ => []
    if definedEntitlements.length = 0 then []
    else
      let plansList : List JVal :=
        match jLookup root "plans" with
        | some (.arr plans) => plans
        | _ => []
      let addonsList : List JVal :=
        match jLookup root "addons" with
        | some (.arr addons) => addons
        | _ => []
      (plansList.enum.map
        (fun ip => planSemanticErrors definedEntitlements ip.1 ip.2)).flatten ++
      (addonsList.enum.map
        (fun ia => addonSemanticErrors definedEntitlements ia.1 ia.2)).flatten
  | _ => []

/-! ## File loading -/

/-- `config.LoadBillingFile` (the Catalog-model loader): only `.yaml` /
`.yml` are supported; the file's content and the YAML unmarshaller are
parameters (reading the file is the ambient I/O). -/
def LoadBillingFile (parseYAML : String → Except String BillingConfig)
    (filePath content : String) : Except String BillingConfig :=
  let ext := toLowerStr (filepathExt filePath)
  if ext ≠ ".yaml" ∧ ext ≠ ".yml" then
    .error s!"unsupported file extension: {ext} (use .yaml or .yml)"
  else
    match parseYAML content with
    | .error e => .error s!"failed to parse YAML: {e}"
    | .ok config => .ok config

/-- `convertYAMLToJSON`: structural normalization of the decoded YAML value
(string-keyed maps in this model, so a structural recursion). -/
def convertYAMLToJSON : JVal → JVal
  | .obj fields => .obj (fields.attach.map (fun kv => (kv.1.1, convertYAMLToJSON kv.1.2)))
  | .arr xs => .arr (xs.attach.map (fun x => convertYAMLToJSON x.1))
  | v => v
  decreasing_by
  · have h1 : sizeOf kv.1 < sizeOf fields := List.sizeOf_lt_of_mem kv.2
    have h2 : sizeOf kv.1.2 < sizeOf kv.1 := by
      obtain ⟨a, b⟩ := kv.1
      simp only [Prod.mk.sizeOf_spec]
      omega
    have h3 : sizeOf fields < sizeOf (JVal.obj fields) := by
      simp only [JVal.obj.sizeOf_spec]
      omega
    omega
  · have h1 : sizeOf x.1 < sizeOf xs := List.sizeOf_lt_of_mem x.2
    have h3 : sizeOf xs < sizeOf (JVal.arr xs) := by
      simp only [JVal.arr.sizeOf_spec]
      omega
    omega

/-- `validator.loadFile`: YAML and JSON both supported, selected by the
lowercased file extension. -/
def loadFile (parseYAML parseJSON : String → Except String JVal)
    (filePath content : String) : Except String JVal :=
  let ext := toLowerStr (filepathExt filePath)
  if ext = ".yaml" ∨ ext = ".yml" then
    match parseYAML content with
    | .error e => .error s!"invalid YAML: {e}"
    | .ok data => .ok (convertYAMLToJSON data)
  else if ext = ".json" then
    match parseJSON content with
    | .error e => .error s!"invalid JSON: {e}"
    | .ok data => .ok data
  else
    .error s!"unsupported file extension: {ext} (use .yaml, .yml, or .json)"

/-- `validator.validateFile`: load, run the (external) schema check, and
for the billing schema also the semantic check, over the same loaded
document. -/
def validateFile (parseYAML parseJSON : String → Except String JVal)
    (schemaCheck : JVal → List ValidationError) (isBillingSchema : Bool)
    (filePath content : String) : Except String ValidationResult :=
  match loadFile parseYAML parseJSON filePath content with
  | .error e => .error s!"failed to load file: {e}"
  | .ok data =>
    let r1 : ValidationResult := { valid := true, errors := [] }
    let schemaErrors := schemaCheck data
    let r2 :=
      if schemaErrors.length > 0 then
        { r1 with valid := false, errors := r1.errors ++ schemaErrors }
      else r1
    let r3 :=
      if isBillingSchema then
        let semanticErrors := validateBillingSemantics data
        if semanticErrors.length > 0 then
          { r2 with valid := false, errors := r2.errors ++ semanticErrors }
        else r2
      else r2
    .ok r3

/-! ## Derived predicates and accessors used by the statements -/

/-- Entitlement keys a decoded catalog document declares. -/
def declaredEntitlementKeys : JVal → List String
  | .obj root =>
    match jLookup root "entitlements" with
    | some (.obj entitlements) => entitlements.map (fun kv => kv.1)
    | _ => []
  | _ => []

/-- The `plans` array of a decoded catalog document. -/
def catalogPlans : JVal → List JVal
  | .obj root =>
    match jLookup root "plans" with
    | some (.arr plans) => plans
    | _ => []
  | _ => []

/-- The `addons` array of a decoded catalog document. -/
def catalogAddons : JVal → List JVal
  | .obj root =>
    match jLookup root "addons" with
    | some (.arr addons) => addons
    | _ => []
  | _ => []

/-- The `limits` keys of one decoded plan entry. -/
def planLimitsKeys : JVal → List String
  | .obj planMap =>
    match jLookup planMap "limits" with
    | some (.obj limits) => limits.map (fun kv => kv.1)
    | _ => []
  | _ => []

/-- The `grants` keys of one decoded addon entry. -/
def addonGrantsKeys : JVal → List String
  | .obj addonMap =>
    match jLookup addonMap "grants" with
    | some (.obj grants) => grants.map (fun kv => kv.1)
    | _ => []
  | _ => []

/-- How many of `keys` are absent from the defined entitlements. -/
def undefinedCount (defined keys : List String) : Nat :=
  (keys.filter (fun k => !defined.contains k)).length

/-- Restriction under which the reconciler's second run is provably silent:
only flat prices on monthly / yearly intervals, and no custom metadata
entry shadowing the `plan_code` key. -/
def FlatPlan (plan : Plan) : Prop :=
  (∀ kv ∈ plan.prices, kv.2.priceType = "flat" ∧ (kv.1 = "monthly" ∨ kv.1 = "yearly")) ∧
  (∀ kv ∈ plan.metadata, kv.1 ≠ "plan_code")

instance (plan : Plan) : Decidable (FlatPlan plan) := by
  unfold FlatPlan
  infer_instance

/-- Every declared price interval of `plan` has an active remote price on
product `pid` carrying exactly the local amount (as it fetches). -/
def PlanPricesPresent (plan : Plan) (pid : Nat) (st : St) : Prop :=
  ∀ kv ∈ plan.prices, ∃ rp ∈ st.prices,
    rp.productId = pid ∧ rp.active = true ∧
    rp.unitAmount = some kv.2.amount ∧ fetchInterval rp.recurring = kv.1

/-- The created product of one plan is fully in place: active, tagged with
the plan's id, carrying its name, and holding all its flat prices. -/
def ProdFor (plan : Plan) (prodR : RProduct) (st : St) : Prop :=
  prodR.active = true ∧
  lookupMeta prodR.metadata "plan_code" = some plan.id ∧
  prodR.name = plan.name ∧
  PlanPricesPresent plan prodR.id st

/-- The remote state a first sync run leaves behind, as the second run sees
it: every plan has an active product tagged with its id, every product is
tagged, and every tag identifies a plan whose name and prices the product
already carries. -/
def SyncedState (plans : List Plan) (st : St) : Prop :=
  (∀ plan ∈ plans, ∃ prodR ∈ st.products,
      prodR.active = true ∧ lookupMeta prodR.metadata "plan_code" = some plan.id) ∧
  (∀ prodR ∈ st.products, ∃ c, lookupMeta prodR.metadata "plan_code" = some c) ∧
  (∀ prodR ∈ st.products, ∀ c, lookupMeta prodR.metadata "plan_code" = some c →
      ∃ plan ∈ plans, plan.id = c ∧ prodR.name = plan.name ∧
        PlanPricesPresent plan prodR.id st)

/-! ## Concrete inputs used by counterexamples and witnesses -/

/-- A product with two active monthly prices, one conflicting and one equal
to the local amount of 2900. -/
def dupPriceProduct : Product :=
  { id := 0, name := "Pro", planCode := "pro", billingModel := "", active := true,
    prices :=
      [{ id := 1, interval := "monthly", amount := 1900, currency := "usd", active := true },
       { id := 2, interval := "monthly", amount := 2900, currency := "usd", active := true }] }

def proMonthlyPlan : Plan :=
  { id := "pro", name := "Pro", prices := [("monthly", { amount := 2900 })] }

/-- Two active monthly remote prices, both conflicting with a local 2900. -/
def twoConflictPrices : List ProductPrice :=
  [{ id := 10, interval := "monthly", amount := 1900, currency := "usd", active := true },
   { id := 11, interval := "monthly", amount := 1500, currency := "usd", active := true }]

/-- A catalog with one per-unit-priced plan. -/
def perUnitCfg : BillingConfig :=
  { providers := ["stripe"],
    plans := [{ id := "pu", name := "PU",
                prices := [("monthly", { amount := 0, perUnit := 5 })] }] }

/-- A catalog with one flat one-time-priced plan. -/
def oneTimeCfg : BillingConfig :=
  { providers := ["stripe"],
    plans := [{ id := "ot", name := "OT", prices := [("one_time", { amount := 100 })] }] }

/-- A catalog with one flat quarterly-priced plan. -/
def quarterlyCfg : BillingConfig :=
  { providers := ["stripe"],
    plans := [{ id := "q", name := "Q", prices := [("quarterly", { amount := 100 })] }] }

/-- A catalog with one addon whose name does not normalize to its id. -/
def addonMismatchCfg : BillingConfig :=
  { providers := ["stripe"],
    addons := [{ id := "extra_seats", name := "Extra Seats Pack", price := { amount := 500 } }] }

/-- A catalog with one active promotion. -/
def promoCfg : BillingConfig :=
  { providers := ["stripe"],
    promotions := [{ code := "LAUNCH", discount := { percent := 20 } }] }

/-- A catalog with one flat monthly plan, used to witness the restricted
idempotence. -/
def flatMonthlyCfg : BillingConfig :=
  { providers := ["stripe"], plans := [proMonthlyPlan] }

/-- An addon whose name normalizes to its id. -/
def seatsAddon : Addon :=
  { id := "extra_seats", name := "Extra Seats", price := { amount := 500 } }

/-- The remote state after syncing a single addon into an empty account:
one product tagged `addon_code` and one one-time price. -/
def addonRun1St (a : Addon) : St :=
  { products := [{ id := 0, name := a.name, description := none,
                   metadata := [("addon_code", a.id), ("type", "addon")],
                   marketingFeatures := [], active := true }],
    prices := [{ id := 1, productId := 0, unitAmount := some a.price.amount,
                 currency := "usd", active := true }],
    coupons := [], promoCodes := [], nextId := 2 }

/-- The fetched view of the addon product of `addonRun1St`: it carries no
`plan_code`, and its price fetches as a one-time (empty-interval) price. -/
def addonRun1Product (a : Addon) : Product :=
  { id := 0, name := a.name, planCode := "", billingModel := "", active := true,
    prices := [{ id := 1, interval := "", amount := a.price.amount,
                 currency := "usd", active := true }] }

def addonRun1Fetched (a : Addon) : List Product := [addonRun1Product a]

/-- The rational 5/2, in reduced form so that kernel evaluation is direct. -/
def fiveHalves : Rat := ⟨5, 2, by decide, by decide⟩

/-- The decoded catalog of the spec's completeness example: entitlements
`{a}`, a plan with `limits {a, b}`, an addon with `grants {c}`. -/
def exampleCatalogDoc : JVal :=
  .obj
    [("entitlements", .obj [("a", .obj [("type", .str "int")])]),
     ("plans", .arr [.obj [("id", .str "p1"),
                           ("limits", .obj [("a", .num 1), ("b", .num 2)])]]),
     ("addons", .arr [.obj [("id", .str "a1"),
                            ("grants", .obj [("c", .num 3)])]])]

/-! ## Theorems -/

/-- C7: invoking `Truncate` on a client whose environment is not sandbox
returns the safety-rail error before making any remote call — the call
trace is empty (nothing listed, archived or deleted), the remote state is
untouched, and no counts are produced. -/
theorem truncate_refuses_nonsandbox (c : Client) (st : St) (h : c.env ≠ Env.sandbox) :
    Truncate c st = (.error "truncate is only allowed in sandbox environment", st, []) := by
  simp [Truncate, h]

/-- Witness for C7: a production-tagged client is refused. -/
theorem truncate_refuses_nonsandbox_witness :
    Truncate { env := Env.production } emptySt =
      (.error "truncate is only allowed in sandbox environment", emptySt, []) :=
  truncate_refuses_nonsandbox { env := Env.production } emptySt (by decide)

/-- C10 counterexample: a float `up_to` of 5/2 — a non-integer non-string
value — yields 2, not 0, and an integer `up_to` of -1 yields the
open-ended tier although it is not the string "unlimited". -/
theorem c10_counterexample :
    PriceTier.getTierUpTo { upTo := .floatV fiveHalves, amount := 300, flat := 0 } = 2 ∧
    PriceTier.getTierUpTo { upTo := .floatV fiveHalves, amount := 300, flat := 0 } ≠ 0 ∧
    PriceTier.getTierUpTo { upTo := .intV (-1), amount := 300, flat := 0 } = -1 ∧
    (mkTierParam { upTo := .intV (-1), amount := 300, flat := 0 }).upToInf = true := by
  decide

/-- C10 (amended): `GetTierUpTo` returns the value of an int `up_to`,
truncates a float toward zero, returns -1 for the exact string
"unlimited", and returns 0 for any other string and for any non-numeric
non-string value; the tier translation marks a tier open-ended exactly
when `GetTierUpTo` is -1 (so a numeric -1 also produces the open-ended
tier), a rejected string silently becomes an upper bound of 0, and a
tiered price is always created without error, its tiers translated 1:1. -/
theorem getTierUpTo_spec :
    (∀ t : PriceTier, ∀ s, t.upTo = UpToVal.strV s → s ≠ "unlimited" →
        t.getTierUpTo = 0 ∧ (mkTierParam t).upTo = some 0 ∧ (mkTierParam t).upToInf = false) ∧
    (∀ t : PriceTier, t.upTo = UpToVal.otherV → t.getTierUpTo = 0) ∧
    (∀ t : PriceTier, ∀ n, t.upTo = UpToVal.intV n → t.getTierUpTo = n) ∧
    (∀ t : PriceTier, ∀ q, t.upTo = UpToVal.floatV q → t.getTierUpTo = goTrunc q) ∧
    (∀ t : PriceTier, (mkTierParam t).upToInf = true ↔ t.getTierUpTo = -1) ∧
    (∀ productID planID localPrice trialDays existingPrices acc st,
        Price.priceType localPrice = "tiered" →
        ∃ p : RPrice,
          syncPriceAdvanced productID planID "monthly" localPrice trialDays existingPrices acc st =
            ({ acc with pricesCreated := acc.pricesCreated + 1 },
             { st with prices := st.prices ++ [p], nextId := st.nextId + 1 }, none) ∧
          p.tiers = localPrice.tiers.map mkTierParam ∧ p.active = true) := by
  refine ⟨?_, ?_, ?_, ?_, ?_, ?_⟩
  · intro t s h hs
    have hg : t.getTierUpTo = 0 := by simp [PriceTier.getTierUpTo, h, hs]
    refine ⟨hg, ?_, ?_⟩ <;> simp [mkTierParam, hg] <;> split <;> rfl
  · intro t h
    simp [PriceTier.getTierUpTo, h]
  · intro t n h
    simp [PriceTier.getTierUpTo, h]
  · intro t q h
    simp [PriceTier.getTierUpTo, h]
  · intro t
    by_cases hg : t.getTierUpTo = -1 <;> simp [mkTierParam, hg] <;> split <;> simp
  · intro productID planID localPrice trialDays existingPrices acc st h
    by_cases htr : trialDays > 0
    · refine ⟨{ id := st.nextId, productId := productID, unitAmount := none, currency := "usd",
                active := true,
                recurring := some { interval := "month", trialPeriodDays := some trialDays },
                billingScheme := some "tiered",
                tiersMode := if localPrice.mode = "volume" then some "volume" else some "graduated",
                tiers := localPrice.tiers.map mkTierParam }, ?_, rfl, rfl⟩
      simp [syncPriceAdvanced, h, createNewPrice, buildRecurring, createPrice, htr]
    · refine ⟨{ id := st.nextId, productId := productID, unitAmount := none, currency := "usd",
                active := true,
                recurring := some { interval := "month" },
                billingScheme := some "tiered",
                tiersMode := if localPrice.mode = "volume" then some "volume" else some "graduated",
                tiers := localPrice.tiers.map mkTierParam }, ?_, rfl, rfl⟩
      simp [syncPriceAdvanced, h, createNewPrice, buildRecurring, createPrice, htr]

/-- C8 counterexample: loading a catalog file with the `.json` extension
into the Catalog data model fails with the unsupported-extension error,
whatever the parser would have produced — JSON is not a supported input of
`LoadBillingFile`. -/
theorem c8_counterexample :
    LoadBillingFile (fun _ => Except.ok {}) "billing.json" "{}" =
      Except.error "unsupported file extension: .json (use .yaml or .yml)" := by
  rfl

/-- C8 (amended): the Catalog-model loader `LoadBillingFile` accepts only
the `.yaml` / `.yml` extensions (lowercased), failing with an
unsupported-extension error for everything else, `.json` included; the
validator's `loadFile` selects the YAML or JSON parser by extension and
errors only on other extensions; and the document `loadFile` parsed is
exactly what schema validation and semantic validation run over. -/
theorem load_dispatch_spec :
    (∀ parseYAML (filePath content : String) cfg,
        (toLowerStr (filepathExt filePath) = ".yaml" ∨ toLowerStr (filepathExt filePath) = ".yml") →
        parseYAML content = Except.ok cfg →
        LoadBillingFile parseYAML filePath content = Except.ok cfg) ∧
    (∀ parseYAML (filePath content : String),
        toLowerStr (filepathExt filePath) ≠ ".yaml" → toLowerStr (filepathExt filePath) ≠ ".yml" →
        LoadBillingFile parseYAML filePath content =
          Except.error ("unsupported file extension: " ++ toLowerStr (filepathExt filePath) ++
            " (use .yaml or .yml)")) ∧
    (∀ pY pJ (filePath content : String) data,
        (toLowerStr (filepathExt filePath) = ".yaml" ∨ toLowerStr (filepathExt filePath) = ".yml") →
        pY content = Except.ok data →
        loadFile pY pJ filePath content = Except.ok (convertYAMLToJSON data)) ∧
    (∀ pY pJ (filePath content : String) data,
        toLowerStr (filepathExt filePath) = ".json" →
        pJ content = Except.ok data →
        loadFile pY pJ filePath content = Except.ok data) ∧
    (∀ pY pJ (filePath content : String),
        toLowerStr (filepathExt filePath) ≠ ".yaml" → toLowerStr (filepathExt filePath) ≠ ".yml" →
        toLowerStr (filepathExt filePath) ≠ ".json" →
        loadFile pY pJ filePath content =
          Except.error ("unsupported file extension: " ++ toLowerStr (filepathExt filePath) ++
            " (use .yaml, .yml, or .json)")) ∧
    (∀ pY pJ schemaCheck (filePath content : String) data,
        loadFile pY pJ filePath content = Except.ok data →
        validateFile pY pJ schemaCheck true filePath content =
          Except.ok { valid := (schemaCheck data).isEmpty && (validateBillingSemantics data).isEmpty,
                      errors := schemaCheck data ++ validateBillingSemantics data }) := by
  refine ⟨?_, ?_, ?_, ?_, ?_, ?_⟩
  · intro parseYAML filePath content cfg hext hok
    rcases hext with h | h <;> simp [LoadBillingFile, h, hok]
  · intro parseYAML filePath content h1 h2
    simp [LoadBillingFile, h1, h2]
    rfl
  · intro pY pJ filePath content data hext hok
    rcases hext with h | h <;> simp [loadFile, h, hok]
  · intro pY pJ filePath content data hext hok
    simp [loadFile, hext, hok]
  · intro pY pJ filePath content h1 h2 h3
    simp [loadFile, h1, h2, h3]
    rfl
  · intro pY pJ schemaCheck filePath content data hload
    simp only [validateFile, hload]
    rcases hs : schemaCheck data with _ | ⟨e, es⟩ <;>
      rcases hv : validateBillingSemantics data with _ | ⟨f, fs⟩ <;>
        simp [hs, hv]

/-- C2: `MatchProduct` returns the first active product whose `plan_code`
equals the local id exactly; only when no such product exists does it
return the first active product whose normalized name equals the
equally-normalized local id; with neither it returns none; and an inactive
product is never returned by either tier. -/
theorem matchProduct_spec :
    (∀ products (planID planName : String) p,
        MatchProduct products planID planName = some p →
        p ∈ products ∧ p.active = true) ∧
    (∀ products (planID planName : String),
        MatchProduct products planID planName = none ↔
          (∀ p ∈ products, ¬(p.active = true ∧ p.planCode = planID)) ∧
          (∀ p ∈ products, ¬(p.active = true ∧ normalizeName p.name = normalizeName planID))) ∧
    (∀ products (planID planName : String) p,
        MatchProduct products planID planName = some p →
          (p.active = true ∧ p.planCode = planID ∧
            ∃ l1 l2, products = l1 ++ p :: l2 ∧
              ∀ q ∈ l1, ¬(q.active = true ∧ q.planCode = planID)) ∨
          ((∀ q ∈ products, ¬(q.active = true ∧ q.planCode = planID)) ∧
            p.active = true ∧ normalizeName p.name = normalizeName planID ∧
            ∃ l1 l2, products = l1 ++ p :: l2 ∧
              ∀ q ∈ l1, ¬(q.active = true ∧ normalizeName q.name = normalizeName planID))) := by
  refine ⟨?_, ?_, ?_⟩
  · intro products planID planName p h
    unfold MatchProduct at h
    rcases hc : products.find? (fun q => q.active && q.planCode == planID) with _ | p1
    · rw [hc] at h
      simp only at h
      refine ⟨List.mem_of_find?_eq_some h, ?_⟩
      have := List.find?_some h
      simp at this
      exact this.1
    · rw [hc] at h
      simp only [Option.some.injEq] at h
      subst h
      refine ⟨List.mem_of_find?_eq_some hc, ?_⟩
      have := List.find?_some hc
      simp at this
      exact this.1
  · intro products planID planName
    unfold MatchProduct
    rcases hc : products.find? (fun q => q.active && q.planCode == planID) with _ | p1
    · rw [hc]
      simp only
      rw [List.find?_eq_none]
      rw [List.find?_eq_none] at hc
      constructor
      · intro h
        refine ⟨?_, ?_⟩
        · intro q hq hqp
          exact hc q hq (by simpa using hqp)
        · intro q hq hqp
          exact h q hq (by simpa using hqp)
      · intro h q hq hqp
        exact h.2 q hq (by simpa using hqp)
    · rw [hc]
      simp only
      constructor
      · intro h
        cases h
      · intro h
        have := List.find?_some hc
        simp only [Bool.and_eq_true, beq_iff_eq] at this
        exact absurd ⟨this.1, this.2⟩ (h.1 p1 (List.mem_of_find?_eq_some hc))
  · intro products planID planName p h
    unfold MatchProduct at h
    rcases hc : products.find? (fun q => q.active && q.planCode == planID) with _ | p1
    · rw [hc] at h
      simp only at h
      right
      rw [List.find?_eq_none] at hc
      rw [List.find?_eq_some] at h
      obtain ⟨hp, l1, l2, hsplit, hfirst⟩ := h
      simp only [Bool.and_eq_true, beq_iff_eq] at hp
      refine ⟨?_, hp.1, hp.2, l1, l2, hsplit, ?_⟩
      · intro q hq hqp
        exact hc q hq (by simpa using hqp)
      · intro q hq hqp
        have := hfirst q hq
        simp only [Bool.not_eq_eq_eq_not, Bool.not_true, Bool.and_eq_false_iff] at this
        rcases this with h1 | h1
        · exact absurd h1 (by simp [hqp.1])
        · exact absurd h1 (by simp [hqp.2])
    · rw [hc] at h
      simp only [Option.some.injEq] at h
      subst h
      left
      rw [List.find?_eq_some] at hc
      obtain ⟨hp, l1, l2, hsplit, hfirst⟩ := hc
      simp only [Bool.and_eq_true, beq_iff_eq] at hp
      refine ⟨hp.1, hp.2, l1, l2, hsplit, ?_⟩
      intro q hq hqp
      have := hfirst q hq
      simp only [Bool.not_eq_eq_eq_not, Bool.not_true, Bool.and_eq_false_iff] at this
      rcases this with h1 | h1
      · exact absurd h1 (by simp [hqp.1])
      · exact absurd h1 (by simp [hqp.2])

lemma planSemanticErrors_length (defined : List String) (i : Nat) (plan : JVal) :
    (planSemanticErrors defined i plan).length =
      undefinedCount defined (planLimitsKeys plan) := by
  cases plan with
  | obj m =>
    simp only [planSemanticErrors, planLimitsKeys, undefinedCount]
    rcases hl : jLookup m "limits" with _ | v
    · simp [hl]
    · cases v <;> simp [hl]
  | str s => rfl
  | num q => rfl
  | boolV b => rfl
  | null => rfl
  | arr xs => rfl

lemma addonSemanticErrors_length (defined : List String) (i : Nat) (addon : JVal) :
    (addonSemanticErrors defined i addon).length =
      undefinedCount defined (addonGrantsKeys addon) := by
  cases addon with
  | obj m =>
    simp only [addonSemanticErrors, addonGrantsKeys, undefinedCount]
    rcases hl : jLookup m "grants" with _ | v
    · simp [hl]
    · cases v <;> simp [hl]
  | str s => rfl
  | num q => rfl
  | boolV b => rfl
  | null => rfl
  | arr xs => rfl

lemma flatten_enum_length (f : Nat → JVal → List ValidationError) (g : JVal → Nat)
    (hfg : ∀ i x, (f i x).length = g x) (l : List JVal) :
    ((l.enum.map (fun ip => f ip.1 ip.2)).flatten).length = (l.map g).sum := by
  rw [List.length_flatten, List.map_map]
  have h1 : (l.enum.map (List.length ∘ fun ip => f ip.1 ip.2)) =
      l.enum.map (fun ip => g ip.2) := by
    apply List.map_congr_left
    intro ip _
    simp [hfg]
  rw [h1]
  have h2 : l.enum.map (fun ip => g ip.2) = (l.enum.map Prod.snd).map g := by
    rw [List.map_map]
    rfl
  rw [h2, List.enum_map_snd]

/-- C5: semantic validation returns one error for every `limits` key of
every plan and every `grants` key of every addon that is absent from the
declared entitlements — all violations in one pass — and returns no errors
at all when the catalog declares no entitlements, regardless of what
`limits` / `grants` reference. -/
theorem validateBillingSemantics_spec :
    (∀ data : JVal, declaredEntitlementKeys data = [] →
        validateBillingSemantics data = []) ∧
    (∀ data : JVal, (validateBillingSemantics data).length =
        if declaredEntitlementKeys data = [] then 0
        else
          ((catalogPlans data).map
            (fun p => undefinedCount (declaredEntitlementKeys data) (planLimitsKeys p))).sum +
          ((catalogAddons data).map
            (fun a => undefinedCount (declaredEntitlementKeys data) (addonGrantsKeys a))).sum) := by
  constructor
  · intro data h
    cases data with
    | obj root =>
      simp only [declaredEntitlementKeys] at h
      simp only [validateBillingSemantics]
      rcases he : jLookup root "entitlements" with _ | v
      · rw [he] at h
        simp [he]
      · rw [he] at h
        cases v <;> simp [he]
        simp_all
    | str s => rfl
    | num q => rfl
    | boolV b => rfl
    | null => rfl
    | arr xs => rfl
  · intro data
    cases data with
    | obj root =>
      simp only [validateBillingSemantics, declaredEntitlementKeys, catalogPlans, catalogAddons]
      rcases he : jLookup root "entitlements" with _ | v
      · simp [he]
      · cases v with
        | obj ents =>
          simp only [he]
          by_cases hne : ents.map (fun kv => kv.1) = []
          · simp [hne]
          · have hlen : ¬((ents.map (fun kv => kv.1)).length = 0) := by
              simpa [List.length_eq_zero] using hne
            simp only [hne, hlen, if_false, if_neg hlen, if_neg hne]
            rw [List.length_append,
              flatten_enum_length _ _ (planSemanticErrors_length _),
              flatten_enum_length _ _ (addonSemanticErrors_length _)]
        | str s => simp [he]
        | num q => simp [he]
        | boolV b => simp [he]
        | null => simp [he]
        | arr xs => simp [he]
    | str s => rfl
    | num q => rfl
    | boolV b => rfl
    | null => rfl
    | arr xs => rfl

/-- Witness for C5 at the spec's completeness example: entitlements `{a}`,
plan limits `{a, b}`, addon grants `{c}` yield exactly two errors. -/
theorem validateBillingSemantics_spec_witness :
    (validateBillingSemantics exampleCatalogDoc).length = 2 :=
  (validateBillingSemantics_spec.2 exampleCatalogDoc).trans (by decide)

/-- C3 counterexample: the matched product carries two active monthly
prices, 1900 first and 2900 second; the local monthly amount is 2900, so
an active remote price with an equal amount exists for the interval, yet
the plan's status is DIFFERS, because only the first active price per
interval is compared. -/
theorem c3_counterexample :
    (comparePlan proMonthlyPlan [dupPriceProduct]).status = Status.differs ∧
    (∃ q ∈ dupPriceProduct.prices,
      q.interval = "monthly" ∧ q.active = true ∧ q.amount = 2900) := by
  decide

lemma comparePriceStep_snd_nil (pp : List ProductPrice)
    (acc : List PriceDiff × List String) (kv : String × Price) :
    (comparePriceStep pp acc kv).2 = [] ↔
      (acc.2 = [] ∧ ∃ q, findPrice pp kv.1 = some q ∧ kv.2.amount = q.amount) := by
  unfold comparePriceStep
  rcases hf : findPrice pp kv.1 with _ | q
  · simp [hf]
  · by_cases ha : kv.2.amount = q.amount
    · simp [hf, ha]
    · simp [hf, ha]

lemma comparePrices_details_nil (pp : List ProductPrice) :
    ∀ (kvs : List (String × Price)) (acc : List PriceDiff × List String),
      (kvs.foldl (comparePriceStep pp) acc).2 = [] ↔
        (acc.2 = [] ∧
          ∀ kv ∈ kvs, ∃ q, findPrice pp kv.1 = some q ∧ kv.2.amount = q.amount) := by
  intro kvs
  induction kvs with
  | nil => intro acc; simp
  | cons kv rest ih =>
    intro acc
    rw [List.foldl_cons, ih, comparePriceStep_snd_nil]
    simp only [List.mem_cons]
    constructor
    · rintro ⟨⟨h1, hkv⟩, hrest⟩
      refine ⟨h1, ?_⟩
      rintro kv' (rfl | h')
      · exact hkv
      · exact hrest kv' h'
    · rintro ⟨h1, hall⟩
      exact ⟨⟨h1, hall kv (Or.inl rfl)⟩, fun kv' h' => hall kv' (Or.inr h')⟩

/-- C3 (amended): a plan's diff status is MISSING exactly when no product
matches (with details "Not in Stripe" and no per-price breakdown); with a
matched product it is OK exactly when, for every declared price interval,
the first active remote price with that interval exists and has an equal
amount, and DIFFERS otherwise; `findPrice` never returns an inactive
price, so an inactive price neither satisfies nor is even consulted by a
price comparison. -/
theorem comparePlan_classification :
    (∀ plan products, MatchProduct products plan.id plan.name = none →
        comparePlan plan products =
          { planID := plan.id, planName := plan.name, status := .missing,
            details := "Not in Stripe", prices := [] }) ∧
    (∀ plan products P, MatchProduct products plan.id plan.name = some P →
        ((comparePlan plan products).status = Status.ok ↔
          ∀ kv ∈ plan.prices, ∃ q, findPrice P.prices kv.1 = some q ∧
            kv.2.amount = q.amount) ∧
        ((comparePlan plan products).status = Status.differs ↔
          ¬ ∀ kv ∈ plan.prices, ∃ q, findPrice P.prices kv.1 = some q ∧
            kv.2.amount = q.amount) ∧
        (comparePlan plan products).status ≠ Status.missing) ∧
    (∀ prices (interval : String) q, findPrice prices interval = some q →
        q.active = true ∧ q.interval = interval) ∧
    (∀ prices (interval : String), findPrice prices interval = none ↔
        ∀ q ∈ prices, ¬(q.interval = interval ∧ q.active = true)) := by
  refine ⟨?_, ?_, ?_, ?_⟩
  · intro plan products h
    simp only [comparePlan, h]
  · intro plan products P h
    simp only [comparePlan, h]
    have hfold := comparePrices_details_nil P.prices plan.prices ([], [])
    simp only [true_and] at hfold
    by_cases hd : (plan.prices.foldl (comparePriceStep P.prices) ([], [])).2 = []
    · have hall := hfold.mp hd
      refine ⟨?_, ?_, ?_⟩
      · simp only [hd]
        simp
        intro a b hab
        exact hall (a, b) hab
      · simp only [hd]
        simp
        intro a b hab
        exact hall (a, b) hab
      · simp only [hd]
        simp
    · have hnall := (not_congr hfold).mp hd
      push_neg at hnall
      obtain ⟨kv, hkv, hq⟩ := hnall
      have hlen : 0 < (plan.prices.foldl (comparePriceStep P.prices) ([], [])).2.length := by
        cases hx : (plan.prices.foldl (comparePriceStep P.prices) ([], [])).2 with
        | nil => exact absurd hx hd
        | cons a l => simp
      refine ⟨?_, ?_, ?_⟩
      · simp [hlen]
        exact ⟨kv.1, kv.2, hkv, hq⟩
      · simp [hlen]
        exact ⟨kv.1, kv.2, hkv, hq⟩
      · simp [hlen]
  · intro prices interval q h
    have h1 := List.find?_some h
    simp only [Bool.and_eq_true, beq_iff_eq] at h1
    exact ⟨h1.2, h1.1⟩
  · intro prices interval
    unfold findPrice
    rw [List.find?_eq_none]
    constructor
    · intro h q hq hqp
      exact h q hq (by simp [hqp.1, hqp.2])
    · intro h q hq hqp
      simp only [Bool.and_eq_true, beq_iff_eq] at hqp
      exact h q hq ⟨hqp.1, hqp.2⟩

lemma compareStep_counts (products : List Product) (provs : List String)
    (r : DiffResult) (plan : Plan) :
    ((compareStep products provs r plan).summary.total =
      (if plan.hasProvider "stripe" provs then r.summary.total + 1 else r.summary.total)) ∧
    ((compareStep products provs r plan).summary.synced +
     (compareStep products provs r plan).summary.missing +
     (compareStep products provs r plan).summary.differs =
      (if plan.hasProvider "stripe" provs
       then r.summary.synced + r.summary.missing + r.summary.differs + 1
       else r.summary.synced + r.summary.missing + r.summary.differs)) := by
  unfold compareStep
  by_cases hp : plan.hasProvider "stripe" provs
  · rcases hst : (comparePlan plan products).status <;> simp [hp, hst] <;> omega
  · simp [hp]

lemma compare_fold (products : List Product) (provs : List String) :
    ∀ (plans : List Plan) (r : DiffResult),
      ((plans.foldl (compareStep products provs) r).summary.total =
        r.summary.total +
          (plans.filter (fun plan => plan.hasProvider "stripe" provs)).length) ∧
      ((plans.foldl (compareStep products provs) r).summary.synced +
       (plans.foldl (compareStep products provs) r).summary.missing +
       (plans.foldl (compareStep products provs) r).summary.differs =
        r.summary.synced + r.summary.missing + r.summary.differs +
          (plans.filter (fun plan => plan.hasProvider "stripe" provs)).length) := by
  intro plans
  induction plans with
  | nil => intro r; simp
  | cons plan rest ih =>
    intro r
    rw [List.foldl_cons]
    obtain ⟨ht, hs⟩ := ih (compareStep products provs r plan)
    obtain ⟨st, ss⟩ := compareStep_counts products provs r plan
    rcases hb : plan.hasProvider "stripe" provs with _ | _ <;>
      rw [hb] at st ss <;>
        simp only [List.filter_cons, hb, if_true, if_false, Bool.false_eq_true,
          List.length_cons] at st ss ⊢ <;>
          omega

/-- C6: in every `Compare` result, `summary.total` equals the number of
plans targeting the provider, each such plan is counted in exactly one of
synced / missing / differs (their sum is the total, plans not targeting
the provider contribute nothing), and `HasDifferences` is true iff
`summary.missing + summary.differs > 0`. -/
theorem compare_summary_spec :
    ∀ cfg products (env comparedAt : String),
      (Compare cfg products env comparedAt).summary.total =
        (cfg.plans.filter (fun plan => plan.hasProvider "stripe" cfg.providers)).length ∧
      (Compare cfg products env comparedAt).summary.total =
        (Compare cfg products env comparedAt).summary.synced +
        (Compare cfg products env comparedAt).summary.missing +
        (Compare cfg products env comparedAt).summary.differs ∧
      ((Compare cfg products env comparedAt).hasDifferences = true ↔
        0 < (Compare cfg products env comparedAt).summary.missing +
            (Compare cfg products env comparedAt).summary.differs) := by
  intro cfg products env comparedAt
  unfold Compare
  obtain ⟨ht, hs⟩ := compare_fold products cfg.providers cfg.plans
    { environment := env, comparedAt := comparedAt, plans := [], summary := {} }
  simp only at ht hs
  refine ⟨?_, ?_, ?_⟩
  · simpa using ht
  · rw [ht, hs]
  · unfold DiffResult.hasDifferences
    simp only [Bool.or_eq_true, decide_eq_true_eq]
    omega

/-- C4 counterexample: with two conflicting active monthly prices (1900 and
1500) against a local flat 2900, the reconciler emits two warnings and two
archives, not exactly one warning and one archive. -/
theorem c4_counterexample :
    (syncPriceAdvanced 0 "pro" "monthly" { amount := 2900 } 0 twoConflictPrices
        {} emptySt).1.warnings.length = 2 ∧
    (syncPriceAdvanced 0 "pro" "monthly" { amount := 2900 } 0 twoConflictPrices
        {} emptySt).1.pricesArchived = 2 := by
  decide

lemma deactivatePrice_map_id (st : St) (pid : Nat) :
    (deactivatePrice st pid).prices.map RPrice.id = st.prices.map RPrice.id := by
  unfold deactivatePrice
  simp only [List.map_map]
  apply List.map_congr_left
  intro rp _
  simp only [Function.comp_apply]
  split <;> rfl

lemma deactivatePrice_frame (st : St) (pid : Nat) :
    (deactivatePrice st pid).products = st.products ∧
    (deactivatePrice st pid).coupons = st.coupons ∧
    (deactivatePrice st pid).promoCodes = st.promoCodes ∧
    (deactivatePrice st pid).nextId = st.nextId := by
  unfold deactivatePrice
  exact ⟨rfl, rfl, rfl, rfl⟩

lemma archiveAll_map_id (l : List ProductPrice) :
    ∀ st : St,
      ((l.foldl (fun s p => deactivatePrice s p.id) st).prices.map RPrice.id =
        st.prices.map RPrice.id) ∧
      ((l.foldl (fun s p => deactivatePrice s p.id) st).nextId = st.nextId) := by
  induction l with
  | nil => intro st; exact ⟨rfl, rfl⟩
  | cons p rest ih =>
    intro st
    rw [List.foldl_cons]
    obtain ⟨h1, h2⟩ := ih (deactivatePrice st p.id)
    exact ⟨h1.trans (deactivatePrice_map_id st p.id),
           h2.trans (deactivatePrice_frame st p.id).2.2.2⟩

lemma deactivatePrice_inactive (st : St) (pid : Nat) :
    ∀ rp ∈ (deactivatePrice st pid).prices, rp.id = pid → rp.active = false := by
  intro rp hrp hid
  unfold deactivatePrice at hrp
  simp only [List.mem_map] at hrp
  obtain ⟨orig, horig, heq⟩ := hrp
  by_cases hc : orig.id == pid
  · rw [if_pos hc] at heq
    rw [← heq]
  · rw [if_neg hc] at heq
    rw [← heq] at hid
    exact absurd (by simp [hid]) hc

lemma deactivatePrice_keeps_inactive (st : St) (pid i : Nat)
    (h : ∀ rp ∈ st.prices, rp.id = i → rp.active = false) :
    ∀ rp ∈ (deactivatePrice st pid).prices, rp.id = i → rp.active = false := by
  intro rp hrp hid
  unfold deactivatePrice at hrp
  simp only [List.mem_map] at hrp
  obtain ⟨orig, horig, heq⟩ := hrp
  by_cases hc : orig.id == pid
  · rw [if_pos hc] at heq
    rw [← heq]
  · rw [if_neg hc] at heq
    exact h rp (heq ▸ horig) hid

lemma archiveAll_keeps_inactive (l : List ProductPrice) :
    ∀ (st : St) (i : Nat),
      (∀ rp ∈ st.prices, rp.id = i → rp.active = false) →
      ∀ rp ∈ (l.foldl (fun s p => deactivatePrice s p.id) st).prices,
        rp.id = i → rp.active = false := by
  induction l with
  | nil => intro st i h; exact h
  | cons p rest ih =>
    intro st i h
    rw [List.foldl_cons]
    exact ih (deactivatePrice st p.id) i (deactivatePrice_keeps_inactive st p.id i h)

lemma archiveAll_inactive (l : List ProductPrice) :
    ∀ (st : St) (p : ProductPrice), p ∈ l →
      ∀ rp ∈ (l.foldl (fun s q => deactivatePrice s q.id) st).prices,
        rp.id = p.id → rp.active = false := by
  induction l with
  | nil => intro st p hp; cases hp
  | cons q rest ih =>
    intro st p hp
    rw [List.foldl_cons]
    rcases List.mem_cons.mp hp with rfl | hp'
    · exact archiveAll_keeps_inactive rest (deactivatePrice st p.id) p.id
        (deactivatePrice_inactive st p.id)
    · exact ih (deactivatePrice st q.id) p hp'

lemma archiveConflict_fold (planID interval : String) (la : Int) :
    ∀ (eps : List ProductPrice) (acc : SyncResult) (st : St),
      eps.foldl (archiveConflictStep planID interval la) (acc, st) =
        ({ acc with
           warnings := acc.warnings ++
             ((eps.filter (fun p => p.interval == interval && p.active && p.amount != la)).map
               (fun p => conflictWarning planID interval la p.amount)),
           pricesArchived := acc.pricesArchived +
             (eps.filter (fun p => p.interval == interval && p.active && p.amount != la)).length },
         (eps.filter (fun p => p.interval == interval && p.active && p.amount != la)).foldl
           (fun s p => deactivatePrice s p.id) st) := by
  intro eps
  induction eps with
  | nil => intro acc st; simp
  | cons p rest ih =>
    intro acc st
    rw [List.foldl_cons, List.filter_cons]
    by_cases hc : (p.interval == interval && p.active && p.amount != la) = true
    · have hstep : archiveConflictStep planID interval la (acc, st) p =
          ({ acc with
             warnings := acc.warnings ++ [conflictWarning planID interval la p.amount],
             pricesArchived := acc.pricesArchived + 1 }, deactivatePrice st p.id) := by
        unfold archiveConflictStep
        rw [if_pos hc]
      rw [if_pos hc, hstep, ih, List.foldl_cons]
      simp [List.append_assoc]
      omega
    · have hstep : archiveConflictStep planID interval la (acc, st) p = (acc, st) := by
        unfold archiveConflictStep
        rw [if_neg hc]
      rw [if_neg hc, hstep, ih]

lemma createNewPrice_flat (productID : Nat) (interval : String) (localPrice : Price)
    (trialDays : Int) (acc : SyncResult) (st : St)
    (hf : localPrice.priceType = "flat")
    (hint : interval = "monthly" ∨ interval = "yearly" ∨ interval = "quarterly" ∨
      interval = "one_time" ∨ interval = "") :
    ∃ r : Option RRecurring,
      createNewPrice productID interval localPrice trialDays acc st =
        ({ acc with pricesCreated := acc.pricesCreated + 1 },
         { st with
           prices := st.prices ++
             [{ id := st.nextId, productId := productID,
                unitAmount := some localPrice.amount, currency := "usd",
                active := true, recurring := r }],
           nextId := st.nextId + 1 }, none) ∧
      (interval = "monthly" ∨ interval = "yearly" → fetchInterval r = interval) := by
  rcases hint with rfl | rfl | rfl | rfl | rfl
  · by_cases htr : trialDays > 0
    · exact ⟨some { interval := "month", trialPeriodDays := some trialDays },
        by simp [createNewPrice, buildRecurring, createPrice, hf, htr], fun _ => rfl⟩
    · exact ⟨some { interval := "month" },
        by simp [createNewPrice, buildRecurring, createPrice, hf, htr], fun _ => rfl⟩
  · by_cases htr : trialDays > 0
    · exact ⟨some { interval := "year", trialPeriodDays := some trialDays },
        by simp [createNewPrice, buildRecurring, createPrice, hf, htr], fun _ => rfl⟩
    · exact ⟨some { interval := "year" },
        by simp [createNewPrice, buildRecurring, createPrice, hf, htr], fun _ => rfl⟩
  · by_cases htr : trialDays > 0
    · exact ⟨some { interval := "month", intervalCount := some 3,
                    trialPeriodDays := some trialDays },
        by simp [createNewPrice, buildRecurring, createPrice, hf, htr],
        by rintro (h | h) <;> exact absurd h (by decide)⟩
    · exact ⟨some { interval := "month", intervalCount := some 3 },
        by simp [createNewPrice, buildRecurring, createPrice, hf, htr],
        by rintro (h | h) <;> exact absurd h (by decide)⟩
  · exact ⟨none, by simp [createNewPrice, buildRecurring, createPrice, hf],
      by rintro (h | h) <;> exact absurd h (by decide)⟩
  · exact ⟨none, by simp [createNewPrice, buildRecurring, createPrice, hf],
      by rintro (h | h) <;> exact absurd h (by decide)⟩

lemma fetchPrice_id_lt (st : St) (pid : Nat)
    (hwf : ∀ rp ∈ st.prices, rp.id < st.nextId) :
    ∀ p ∈ fetchPricesForProduct st pid, p.id < st.nextId := by
  intro p hp
  unfold fetchPricesForProduct at hp
  simp only [List.mem_map, List.mem_filter] at hp
  obtain ⟨orig, ⟨ho, _⟩, hpe⟩ := hp
  rw [← hpe]
  exact hwf orig ho

lemma mem_id_of_map_id_eq {l1 l2 : List RPrice}
    (h : l1.map RPrice.id = l2.map RPrice.id) :
    ∀ rp ∈ l1, ∃ orig ∈ l2, orig.id = rp.id := by
  intro rp hrp
  have hmem : rp.id ∈ l2.map RPrice.id := by
    rw [← h]
    exact List.mem_map_of_mem _ hrp
  simp only [List.mem_map] at hmem
  obtain ⟨orig, ho, he⟩ := hmem
  exact ⟨orig, ho, he⟩

lemma syncPriceAdvanced_exact_noop (productID : Nat) (planID interval : String)
    (localPrice : Price) (trialDays : Int) (existingPrices : List ProductPrice)
    (acc : SyncResult) (st : St)
    (hf : localPrice.priceType = "flat")
    (hex : ∃ p ∈ existingPrices, p.interval = interval ∧ p.amount = localPrice.amount ∧
      p.active = true) :
    syncPriceAdvanced productID planID interval localPrice trialDays existingPrices acc st
      = (acc, st, none) := by
  obtain ⟨p, hp, h1, h2, h3⟩ := hex
  have hany : (existingPrices.any
      (fun p => p.interval == interval && p.amount == localPrice.amount && p.active)) = true :=
    List.any_eq_true.mpr ⟨p, hp, by simp [h1, h2, h3]⟩
  simp [syncPriceAdvanced, hf, hany]

/-- C4 (amended): for a flat price, when any active remote price for the
interval already carries the exact local amount the reconciler performs no
mutation at all, even if conflicting prices also exist; otherwise it emits
one warning naming both amounts per conflicting active price of that
interval (so two conflicts yield two warnings), archives each conflicting
price (deactivates, never deletes: every price id survives), and creates
exactly one new active price carrying the local amount. -/
theorem syncPriceAdvanced_flat_spec :
    (∀ productID planID (interval : String) localPrice trialDays existingPrices acc st,
        localPrice.priceType = "flat" →
        (∃ p ∈ existingPrices, p.interval = interval ∧ p.amount = localPrice.amount ∧
          p.active = true) →
        syncPriceAdvanced productID planID interval localPrice trialDays existingPrices acc st
          = (acc, st, none)) ∧
    (∀ productID planID (interval : String) localPrice trialDays acc (st : St),
        localPrice.priceType = "flat" →
        (interval = "monthly" ∨ interval = "yearly" ∨ interval = "quarterly" ∨
          interval = "one_time" ∨ interval = "") →
        (∀ rp ∈ st.prices, rp.id < st.nextId) →
        ¬(∃ p ∈ fetchPricesForProduct st productID, p.interval = interval ∧
            p.amount = localPrice.amount ∧ p.active = true) →
        let out := syncPriceAdvanced productID planID interval localPrice trialDays
          (fetchPricesForProduct st productID) acc st
        let conflicts := (fetchPricesForProduct st productID).filter
          (fun p => p.interval == interval && p.active && p.amount != localPrice.amount)
        out.2.2 = none ∧
        out.1.warnings = acc.warnings ++
          conflicts.map (fun p => conflictWarning planID interval localPrice.amount p.amount) ∧
        out.1.pricesArchived = acc.pricesArchived + conflicts.length ∧
        out.1.pricesCreated = acc.pricesCreated + 1 ∧
        out.2.1.prices.map RPrice.id = st.prices.map RPrice.id ++ [st.nextId] ∧
        (∀ rp ∈ out.2.1.prices, rp.id = st.nextId →
            rp.active = true ∧ rp.unitAmount = some localPrice.amount) ∧
        (∀ p ∈ conflicts, ∀ rp ∈ out.2.1.prices, rp.id = p.id → rp.active = false)) := by
  constructor
  · intro productID planID interval localPrice trialDays existingPrices acc st hf hex
    exact syncPriceAdvanced_exact_noop productID planID interval localPrice trialDays
      existingPrices acc st hf hex
  · intro productID planID interval localPrice trialDays acc st hf hint hwf hne
    intro out conflicts
    have hany : ((fetchPricesForProduct st productID).any
        (fun p => p.interval == interval && p.amount == localPrice.amount && p.active)) = false := by
      cases hx : (fetchPricesForProduct st productID).any
          (fun p => p.interval == interval && p.amount == localPrice.amount && p.active) with
      | false => rfl
      | true =>
        obtain ⟨p, hp, hcond⟩ := List.any_eq_true.mp hx
        simp only [Bool.and_eq_true, beq_iff_eq] at hcond
        exact absurd ⟨p, hp, hcond.1.1, hcond.1.2, hcond.2⟩ hne
    have hmain : out = createNewPrice productID interval localPrice trialDays
        ({ acc with
           warnings := acc.warnings ++
             conflicts.map (fun p => conflictWarning planID interval localPrice.amount p.amount),
           pricesArchived := acc.pricesArchived + conflicts.length })
        (conflicts.foldl (fun s p => deactivatePrice s p.id) st) := by
      show syncPriceAdvanced productID planID interval localPrice trialDays
        (fetchPricesForProduct st productID) acc st = _
      simp only [syncPriceAdvanced, hf, if_true, hany, Bool.false_eq_true, if_false]
      rw [archiveConflict_fold]
    obtain ⟨hidsA, hnidA⟩ :=
      archiveAll_map_id conflicts st
    obtain ⟨r, hr, hri⟩ := createNewPrice_flat productID interval localPrice trialDays
      ({ acc with
         warnings := acc.warnings ++
           conflicts.map (fun p => conflictWarning planID interval localPrice.amount p.amount),
         pricesArchived := acc.pricesArchived + conflicts.length })
      (conflicts.foldl (fun s p => deactivatePrice s p.id) st) hf hint
    rw [hr] at hmain
    have hconf_lt : ∀ p ∈ conflicts, p.id < st.nextId := by
      intro p hp
      exact fetchPrice_id_lt st productID hwf p (List.mem_of_mem_filter hp)
    refine ⟨?_, ?_, ?_, ?_, ?_, ?_, ?_⟩
    · rw [hmain]
    · rw [hmain]
    · rw [hmain]
    · rw [hmain]
    · rw [hmain]
      simp only [List.map_append, List.map_cons, List.map_nil]
      rw [hidsA, hnidA]
    · rw [hmain]
      intro rp hrp hid
      simp only [List.mem_append, List.mem_cons, List.not_mem_nil, or_false] at hrp
      rcases hrp with hrp | rfl
      · obtain ⟨orig, horig, hoe⟩ := mem_id_of_map_id_eq hidsA rp hrp
        have hlt := hwf orig horig
        rw [hoe, hid] at hlt
        exact absurd hlt (lt_irrefl _)
      · exact ⟨rfl, rfl⟩
    · rw [hmain]
      intro p hp rp hrp hid
      simp only [List.mem_append, List.mem_cons, List.not_mem_nil, or_false] at hrp
      rcases hrp with hrp | rfl
      · exact archiveAll_inactive conflicts st p hp rp hrp hid
      · have hid2 : (List.foldl (fun s p => deactivatePrice s p.id) st conflicts).nextId
            = p.id := hid
        rw [hnidA] at hid2
        have hlt := hconf_lt p hp
        rw [← hid2] at hlt
        exact absurd hlt (lt_irrefl _)

/-- C9: a product the reconciler creates for an addon carries the
`addon_code` metadata key and no `plan_code`, so after a first sync into an
empty account the fetched product's plan code is empty and `MatchProduct`'s
primary tier cannot find it; on the later run the addon is matched — and
its exact-amount one-time price treated as a no-op — exactly when the
normalized product name equals the normalized addon id, and otherwise a
duplicate addon product is created. -/
theorem syncAddon_metadata_spec (a : Addon) (acc : SyncResult) (h : a.id ≠ "") :
    let run1 := syncAddon a (fetchProductsWithPrices emptySt) {} emptySt
    let st1 := run1.2.1
    let fetched := fetchProductsWithPrices st1
    run1.2.2 = none ∧
    (∀ prodR ∈ st1.products,
        lookupMeta prodR.metadata "addon_code" = some a.id ∧
        lookupMeta prodR.metadata "plan_code" = none) ∧
    (∀ P ∈ fetched, P.planCode = "") ∧
    fetched.find? (fun p => p.active && p.planCode == a.id) = none ∧
    (normalizeName a.name = normalizeName a.id →
        (∃ P ∈ fetched, MatchProduct fetched a.id a.name = some P) ∧
        syncAddon a fetched acc st1 = (acc, st1, none)) ∧
    (normalizeName a.name ≠ normalizeName a.id →
        MatchProduct fetched a.id a.name = none ∧
        (syncAddon a fetched acc st1).1.addonsCreated = acc.addonsCreated + 1) := by
  intro run1 st1 fetched
  have hst1 : st1 = addonRun1St a := rfl
  have hfetched : fetched = fetchProductsWithPrices (addonRun1St a) := rfl
  have hfl : fetchProductsWithPrices (addonRun1St a) = addonRun1Fetched a := rfl
  have hpc : (("" : String) == a.id) = false := beq_eq_false_iff_ne.mpr (Ne.symm h)
  have hcode : (addonRun1Fetched a).find? (fun p => p.active && p.planCode == a.id) = none := by
    simp [addonRun1Fetched, addonRun1Product, List.find?, hpc]
  refine ⟨rfl, ?_, ?_, ?_, ?_, ?_⟩
  · rw [hst1]
    intro prodR hpr
    simp only [addonRun1St, List.mem_singleton] at hpr
    subst hpr
    exact ⟨rfl, rfl⟩
  · rw [hfetched, hfl]
    intro P hP
    simp only [addonRun1Fetched, List.mem_singleton] at hP
    subst hP
    rfl
  · rw [hfetched, hfl]
    exact hcode
  · intro hn
    have hname : (addonRun1Fetched a).find?
        (fun p => p.active && normalizeName p.name == normalizeName a.id) =
        some (addonRun1Product a) := by
      simp [addonRun1Fetched, addonRun1Product, List.find?, hn]
    have hmp : MatchProduct (addonRun1Fetched a) a.id a.name =
        some (addonRun1Product a) := by
      unfold MatchProduct
      rw [hcode, hname]
    constructor
    · rw [hfetched, hfl]
      refine ⟨addonRun1Product a, ?_, hmp⟩
      simp [addonRun1Fetched]
    · rw [hfetched, hfl, hst1]
      unfold syncAddon
      rw [hmp]
      simp [addonRun1Fetched, addonRun1Product]
  · intro hn
    have hb : (normalizeName a.name == normalizeName a.id) = false :=
      beq_eq_false_iff_ne.mpr hn
    have hname : (addonRun1Fetched a).find?
        (fun p => p.active && normalizeName p.name == normalizeName a.id) = none := by
      simp [addonRun1Fetched, addonRun1Product, List.find?, hb]
    have hmp : MatchProduct (addonRun1Fetched a) a.id a.name = none := by
      unfold MatchProduct
      rw [hcode, hname]
    constructor
    · rw [hfetched, hfl]
      exact hmp
    · rw [hfetched, hfl, hst1]
      unfold syncAddon
      rw [hmp]

/-- Witness for C9 at an addon whose name normalizes to its id: the second
run is a no-op. -/
theorem syncAddon_metadata_spec_witness :
    (let run1 := syncAddon seatsAddon (fetchProductsWithPrices emptySt) {} emptySt
     let st1 := run1.2.1
     let fetched := fetchProductsWithPrices st1
     run1.2.2 = none ∧
     (∀ prodR ∈ st1.products,
         lookupMeta prodR.metadata "addon_code" = some seatsAddon.id ∧
         lookupMeta prodR.metadata "plan_code" = none) ∧
     (∀ P ∈ fetched, P.planCode = "") ∧
     fetched.find? (fun p => p.active && p.planCode == seatsAddon.id) = none ∧
     (normalizeName seatsAddon.name = normalizeName seatsAddon.id →
         (∃ P ∈ fetched, MatchProduct fetched seatsAddon.id seatsAddon.name = some P) ∧
         syncAddon seatsAddon fetched {} st1 = ({}, st1, none)) ∧
     (normalizeName seatsAddon.name ≠ normalizeName seatsAddon.id →
         MatchProduct fetched seatsAddon.id seatsAddon.name = none ∧
         (syncAddon seatsAddon fetched {} st1).1.addonsCreated =
           SyncResult.addonsCreated {} + 1)) :=
  syncAddon_metadata_spec seatsAddon {} (by decide)

lemma foldStop_nil {α : Type}
    (f : α → SyncResult → St → SyncResult × St × Option String)
    (acc : SyncResult) (st : St) : foldStop f [] acc st = (acc, st, none) := rfl

lemma foldStop_cons {α : Type}
    (f : α → SyncResult → St → SyncResult × St × Option String)
    (x : α) (xs : List α) (acc : SyncResult) (st : St)
    (acc' : SyncResult) (st' : St) (h : f x acc st = (acc', st', none)) :
    foldStop f (x :: xs) acc st = foldStop f xs acc' st' := by
  rw [foldStop, h]

lemma foldStop_noop {α : Type}
    (f : α → SyncResult → St → SyncResult × St × Option String) (st : St) :
    ∀ (xs : List α), (∀ x ∈ xs, ∀ a, f x a st = (a, st, none)) →
      ∀ acc, foldStop f xs acc st = (acc, st, none) := by
  intro xs
  induction xs with
  | nil => intro _ acc; rfl
  | cons x rest ih =>
    intro h acc
    rw [foldStop_cons f x rest acc st acc st (h x (List.mem_cons_self x rest) acc)]
    exact ih (fun y hy => h y (List.mem_cons_of_mem x hy)) acc

lemma lookupMeta_insertKV_ne (m : List (String × String)) (k v k' : String)
    (h : k ≠ k') : lookupMeta (insertKV m k v) k' = lookupMeta m k' := by
  unfold insertKV lookupMeta
  induction m with
  | nil =>
    simp [List.find?, beq_eq_false_iff_ne.mpr h]
  | cons a rest ih =>
    by_cases hk : a.1 = k
    · have hne : (a.1 == k') = false := by
        rw [hk]
        exact beq_eq_false_iff_ne.mpr h
      simp only [List.filter_cons]
      rw [if_neg (by simp [hk]), ih,
        List.find?_cons_of_neg rest (by simp [hne])]
    · simp only [List.filter_cons]
      rw [if_pos (by simp [hk]), List.cons_append]
      by_cases hk' : a.1 = k'
      · rw [List.find?_cons_of_pos (List.filter (fun kv => kv.1 != k) rest ++ [(k, v)])
            (by simp [hk']),
          List.find?_cons_of_pos rest (by simp [hk'])]
      · rw [List.find?_cons_of_neg (List.filter (fun kv => kv.1 != k) rest ++ [(k, v)])
            (by simp [beq_eq_false_iff_ne.mpr hk']),
          List.find?_cons_of_neg rest (by simp [beq_eq_false_iff_ne.mpr hk'])]
        exact ih

lemma lookupMeta_metaFold (ms : List (String × MetaVal))
    (h : ∀ kv ∈ ms, kv.1 ≠ "plan_code") :
    ∀ m, lookupMeta
      (ms.foldl
        (fun m kv =>
          match kv.2 with
          | .strV s => insertKV m kv.1 s
          | .otherV => m) m) "plan_code" = lookupMeta m "plan_code" := by
  induction ms with
  | nil => intro m; rfl
  | cons kv rest ih =>
    intro m
    rw [List.foldl_cons]
    rw [ih (fun y hy => h y (List.mem_cons_of_mem kv hy))]
    cases hv : kv.2 with
    | strV s =>
      exact lookupMeta_insertKV_ne m kv.1 s "plan_code" (h kv (List.mem_cons_self kv rest))
    | otherV => rfl

lemma buildPlanMetadata_code (plan : Plan)
    (h : ∀ kv ∈ plan.metadata, kv.1 ≠ "plan_code") :
    lookupMeta (buildPlanMetadata plan) "plan_code" = some plan.id := by
  unfold buildPlanMetadata
  rw [lookupMeta_metaFold plan.metadata h]
  by_cases h1 : plan.headline ≠ ""
  · by_cases h2 : plan.ptype ≠ ""
    · rw [if_pos h2, if_pos h1,
        lookupMeta_insertKV_ne _ _ _ _ (by decide),
        lookupMeta_insertKV_ne _ _ _ _ (by decide)]
      rfl
    · rw [if_neg h2, if_pos h1, lookupMeta_insertKV_ne _ _ _ _ (by decide)]
      rfl
  · by_cases h2 : plan.ptype ≠ ""
    · rw [if_pos h2, if_neg h1, lookupMeta_insertKV_ne _ _ _ _ (by decide)]
      rfl
    · rw [if_neg h2, if_neg h1]
      rfl

lemma syncPrices_empty (productID : Nat) (planID : String) (trial : Int) :
    ∀ (kvs : List (String × Price)),
      (∀ kv ∈ kvs, kv.2.priceType = "flat" ∧ (kv.1 = "monthly" ∨ kv.1 = "yearly")) →
      ∀ (acc : SyncResult) (st : St),
      ∃ (acc' : SyncResult) (newPrices : List RPrice),
        foldStop (fun kv a s => syncPriceAdvanced productID planID kv.1 kv.2 trial [] a s)
          kvs acc st =
          (acc',
           { st with
             prices := st.prices ++ newPrices,
             nextId := st.nextId + newPrices.length },
           none) ∧
        (∀ kv ∈ kvs, ∃ rp ∈ newPrices, rp.productId = productID ∧ rp.active = true ∧
          rp.unitAmount = some kv.2.amount ∧ fetchInterval rp.recurring = kv.1) := by
  intro kvs
  induction kvs with
  | nil =>
    intro _ acc st
    refine ⟨acc, [], ?_, ?_⟩
    · rw [foldStop_nil]
      simp
    · simp
  | cons kv rest ih =>
    intro hkv acc st
    obtain ⟨hflat, hint⟩ := hkv kv (List.mem_cons_self kv rest)
    obtain ⟨r, hcr, hri⟩ := createNewPrice_flat productID kv.1 kv.2 trial acc st hflat
      (by rcases hint with h | h
          · exact Or.inl h
          · exact Or.inr (Or.inl h))
    have hstep : syncPriceAdvanced productID planID kv.1 kv.2 trial [] acc st =
        ({ acc with pricesCreated := acc.pricesCreated + 1 },
         { st with
           prices := st.prices ++
             [{ id := st.nextId, productId := productID,
                unitAmount := some kv.2.amount, currency := "usd",
                active := true, recurring := r }],
           nextId := st.nextId + 1 }, none) := by
      simp only [syncPriceAdvanced, hflat, if_true, List.any_nil, Bool.false_eq_true,
        if_false, List.foldl_nil]
      exact hcr
    obtain ⟨acc', nps, heq, hprops⟩ :=
      ih (fun y hy => hkv y (List.mem_cons_of_mem kv hy))
        { acc with pricesCreated := acc.pricesCreated + 1 }
        { st with
          prices := st.prices ++
            [{ id := st.nextId, productId := productID,
               unitAmount := some kv.2.amount, currency := "usd",
               active := true, recurring := r }],
          nextId := st.nextId + 1 }
    refine ⟨acc',
      { id := st.nextId, productId := productID,
        unitAmount := some kv.2.amount, currency := "usd",
        active := true, recurring := r } :: nps, ?_, ?_⟩
    · rw [foldStop_cons
          (fun kv a s => syncPriceAdvanced productID planID kv.1 kv.2 trial [] a s)
          kv rest acc st _ _ hstep, heq]
      simp only [Prod.mk.injEq, and_true, true_and, St.mk.injEq, List.length_cons]
      constructor
      · simp [List.append_assoc]
      · omega
    · intro y hy
      rcases List.mem_cons.mp hy with rfl | hy'
      · exact ⟨_, List.mem_cons_self _ _, rfl, rfl, rfl, hri hint⟩
      · obtain ⟨rp, hrp, hps⟩ := hprops y hy'
        exact ⟨rp, List.mem_cons_of_mem _ hrp, hps⟩

lemma syncPlan_empty (plan : Plan) (hf : FlatPlan plan) (acc : SyncResult) (st : St) :
    ∃ (acc' : SyncResult) (prod : RProduct) (newPrices : List RPrice),
      syncPlan plan [] acc st =
        (acc',
         { st with
           products := st.products ++ [prod],
           prices := st.prices ++ newPrices,
           nextId := st.nextId + 1 + newPrices.length },
         none) ∧
      prod.active = true ∧
      lookupMeta prod.metadata "plan_code" = some plan.id ∧
      prod.name = plan.name ∧
      (∀ kv ∈ plan.prices, ∃ rp ∈ newPrices, rp.productId = prod.id ∧ rp.active = true ∧
        rp.unitAmount = some kv.2.amount ∧ fetchInterval rp.recurring = kv.1) := by
  obtain ⟨hflat, hmeta⟩ := hf
  obtain ⟨acc', nps, heq, hprops⟩ := syncPrices_empty st.nextId plan.id plan.trialDays
    plan.prices hflat { acc with productsCreated := acc.productsCreated + 1 }
    { st with
      products := st.products ++
        [{ id := st.nextId, name := plan.name,
           description := if plan.description != "" then some plan.description else none,
           metadata := buildPlanMetadata plan, marketingFeatures := plan.features,
           active := true }],
      nextId := st.nextId + 1 }
  refine ⟨acc',
    { id := st.nextId, name := plan.name,
      description := if plan.description != "" then some plan.description else none,
      metadata := buildPlanMetadata plan, marketingFeatures := plan.features,
      active := true }, nps, ?_, rfl, buildPlanMetadata_code plan hmeta, rfl, hprops⟩
  have hmp : MatchProduct ([] : List Product) plan.id plan.name = none := rfl
  simp only [syncPlan, hmp, createProduct]
  rw [heq]

lemma PlanPricesPresent_mono (plan : Plan) (pid : Nat) (st st' : St)
    (h : ∃ more, st'.prices = st.prices ++ more) :
    PlanPricesPresent plan pid st → PlanPricesPresent plan pid st' := by
  intro hp kv hkv
  obtain ⟨rp, hrp, hps⟩ := hp kv hkv
  obtain ⟨more, hm⟩ := h
  exact ⟨rp, by rw [hm]; exact List.mem_append_left _ hrp, hps⟩

lemma ProdFor_mono (plan : Plan) (prodR : RProduct) (st st' : St)
    (h : ∃ more, st'.prices = st.prices ++ more) :
    ProdFor plan prodR st → ProdFor plan prodR st' := by
  rintro ⟨h1, h2, h3, h4⟩
  exact ⟨h1, h2, h3, PlanPricesPresent_mono plan prodR.id st st' h h4⟩

lemma run1_fold (plans : List Plan) :
    (∀ plan ∈ plans, FlatPlan plan) →
    ∀ (acc : SyncResult) (st : St),
      ∃ (acc' : SyncResult) (st' : St) (newProds : List RProduct),
        foldStop (fun plan a s => syncPlan plan [] a s) plans acc st = (acc', st', none) ∧
        st'.products = st.products ++ newProds ∧
        (∃ more, st'.prices = st.prices ++ more) ∧
        (∀ prodR ∈ newProds, ∃ plan ∈ plans, ProdFor plan prodR st') ∧
        (∀ plan ∈ plans, ∃ prodR ∈ newProds, prodR.active = true ∧
            lookupMeta prodR.metadata "plan_code" = some plan.id) := by
  induction plans with
  | nil =>
    intro _ acc st
    exact ⟨acc, st, [], rfl, by simp, ⟨[], by simp⟩, by simp, by simp⟩
  | cons plan rest ih =>
    intro hflat acc st
    obtain ⟨acc1, prod, nps1, heq1, hact, hcode, hname, hpp⟩ :=
      syncPlan_empty plan (hflat plan (List.mem_cons_self plan rest)) acc st
    obtain ⟨acc', st', nps2, heq2, hprod2, hprices2, hfor2, hexist2⟩ :=
      ih (fun y hy => hflat y (List.mem_cons_of_mem plan hy)) acc1
        { st with
          products := st.products ++ [prod],
          prices := st.prices ++ nps1,
          nextId := st.nextId + 1 + nps1.length }
    obtain ⟨more2, hmore2⟩ := hprices2
    refine ⟨acc', st', prod :: nps2, ?_, ?_, ?_, ?_, ?_⟩
    · rw [foldStop_cons (fun plan a s => syncPlan plan [] a s)
          plan rest acc st _ _ heq1]
      exact heq2
    · rw [hprod2]
      simp
    · refine ⟨nps1 ++ more2, ?_⟩
      rw [hmore2]
      show (st.prices ++ nps1) ++ more2 = st.prices ++ (nps1 ++ more2)
      rw [List.append_assoc]
    · intro prodR hpr
      rcases List.mem_cons.mp hpr with hpe | hpr'
      · subst hpe
        refine ⟨plan, List.mem_cons_self plan rest, ?_⟩
        refine ProdFor_mono plan prodR
          { st with
            products := st.products ++ [prodR],
            prices := st.prices ++ nps1,
            nextId := st.nextId + 1 + nps1.length } st' ⟨more2, hmore2⟩ ?_
        refine ⟨hact, hcode, hname, ?_⟩
        intro kv hkv
        obtain ⟨rp, hrp, hps⟩ := hpp kv hkv
        exact ⟨rp, List.mem_append_right st.prices hrp, hps⟩
      · obtain ⟨plan', hplan', hfor'⟩ := hfor2 prodR hpr'
        exact ⟨plan', List.mem_cons_of_mem plan hplan', hfor'⟩
    · intro plan' hplan'
      rcases List.mem_cons.mp hplan' with rfl | hplan''
      · exact ⟨prod, List.mem_cons_self prod nps2, hact, hcode⟩
      · obtain ⟨prodR, hprodR, hps⟩ := hexist2 plan' hplan''
        exact ⟨prodR, List.mem_cons_of_mem prod hprodR, hps⟩

lemma foldStop_congr_none {α : Type}
    (f g : α → SyncResult → St → SyncResult × St × Option String)
    (hfg : ∀ x a s a' s', f x a s = (a', s', none) → g x a s = (a', s', none)) :
    ∀ (xs : List α) (acc : SyncResult) (st : St) (acc' : SyncResult) (st' : St),
      foldStop f xs acc st = (acc', st', none) →
      foldStop g xs acc st = (acc', st', none) := by
  intro xs
  induction xs with
  | nil =>
    intro acc st acc' st' h
    exact h
  | cons x rest ih =>
    intro acc st acc' st' h
    rcases hfx : f x acc st with ⟨a1, s1, e1⟩
    cases e1 with
    | some e =>
      rw [foldStop, hfx] at h
      simp at h
    | none =>
      rw [foldStop_cons f x rest acc st a1 s1 hfx] at h
      rw [foldStop_cons g x rest acc st a1 s1 (hfg x acc st a1 s1 hfx)]
      exact ih a1 s1 acc' st' h

lemma syncPlan_noop (plan : Plan) (fetched : List Product) (P : Product)
    (hmatch : MatchProduct fetched plan.id plan.name = some P)
    (hname : P.name = plan.name)
    (hflat : ∀ kv ∈ plan.prices, kv.2.priceType = "flat")
    (hpr : ∀ kv ∈ plan.prices, ∃ q ∈ P.prices, q.interval = kv.1 ∧
      q.amount = kv.2.amount ∧ q.active = true) :
    ∀ acc st, syncPlan plan fetched acc st = (acc, st, none) := by
  intro acc st
  have hnw : (P.name != plan.name) = false := by simp [hname]
  simp only [syncPlan, hmatch, hnw, Bool.false_eq_true, if_false]
  apply foldStop_noop
  intro kv hkv a
  exact syncPriceAdvanced_exact_noop P.id plan.id kv.1 kv.2 plan.trialDays P.prices a st
    (hflat kv hkv) (hpr kv hkv)

lemma sync_noop (cfg : BillingConfig) (st : St)
    (haddons : cfg.addons = []) (hpromos : cfg.promotions = [])
    (hnodup : (cfg.plans.map Plan.id).Nodup)
    (hflat : ∀ plan ∈ cfg.plans, FlatPlan plan)
    (hsync : SyncedState cfg.plans st) :
    Sync cfg st = ({}, st, none) := by
  obtain ⟨hex, hall, hchar⟩ := hsync
  have hplanstep : ∀ plan ∈ cfg.plans, ∀ a,
      planStepFn (fetchProductsWithPrices st) plan a st = (a, st, none) := by
    intro plan hplan a
    obtain ⟨prodR, hprodR, hact, hcode⟩ := hex plan hplan
    have hmemF : toFetchedProduct st prodR ∈ fetchProductsWithPrices st := by
      unfold fetchProductsWithPrices
      exact List.mem_map_of_mem _ (List.mem_filter.mpr ⟨hprodR, hact⟩)
    have hpcF : (toFetchedProduct st prodR).planCode = plan.id := by
      unfold toFetchedProduct
      simp [hcode]
    have hactF : (toFetchedProduct st prodR).active = true := by
      unfold toFetchedProduct
      simp [hact]
    obtain ⟨P, hfind⟩ : ∃ P, (fetchProductsWithPrices st).find?
        (fun p => p.active && p.planCode == plan.id) = some P := by
      have hs : ((fetchProductsWithPrices st).find?
          (fun p => p.active && p.planCode == plan.id)).isSome := by
        rw [List.find?_isSome]
        exact ⟨toFetchedProduct st prodR, hmemF, by simp [hpcF, hactF]⟩
      exact Option.isSome_iff_exists.mp hs
    have hPmem := List.mem_of_find?_eq_some hfind
    have hPprop := List.find?_some hfind
    simp only [Bool.and_eq_true, beq_iff_eq] at hPprop
    obtain ⟨prodR', hpr', hPe⟩ : ∃ x ∈ st.products.filter (fun p => p.active),
        toFetchedProduct st x = P := by
      unfold fetchProductsWithPrices at hPmem
      exact List.mem_map.mp hPmem
    have hpr'' : prodR' ∈ st.products := (List.mem_filter.mp hpr').1
    obtain ⟨c, hc⟩ := hall prodR' hpr''
    have hcP : P.planCode = c := by
      rw [← hPe]
      unfold toFetchedProduct
      simp [hc]
    have hceq : c = plan.id := by
      rw [← hcP]
      exact hPprop.2
    rw [hceq] at hc
    obtain ⟨plan', hplan', hpid, hnameR, hppR⟩ := hchar prodR' hpr'' plan.id hc
    have hpe : plan' = plan :=
      List.inj_on_of_nodup_map hnodup hplan' hplan hpid
    subst hpe
    have hPname : P.name = plan'.name := by
      rw [← hPe]
      unfold toFetchedProduct
      simp [hnameR]
    have hPprices : ∀ kv ∈ plan'.prices, ∃ q ∈ P.prices, q.interval = kv.1 ∧
        q.amount = kv.2.amount ∧ q.active = true := by
      intro kv hkv
      obtain ⟨rp, hrp, hpid', hactv, huam, hfi⟩ := hppR kv hkv
      refine ⟨toProductPrice rp, ?_, ?_, ?_, ?_⟩
      · rw [← hPe]
        unfold toFetchedProduct fetchPricesForProduct
        simp only
        exact List.mem_map_of_mem _ (List.mem_filter.mpr ⟨hrp, by simp [hpid']⟩)
      · unfold toProductPrice
        simp [hfi]
      · unfold toProductPrice
        simp [huam]
      · unfold toProductPrice
        simp [hactv]
    have hmp : MatchProduct (fetchProductsWithPrices st) plan'.id plan'.name = some P := by
      unfold MatchProduct
      rw [hfind]
    have hsp := syncPlan_noop plan' (fetchProductsWithPrices st) P hmp hPname
      (fun kv hkv => ((hflat plan' hplan).1 kv hkv).1) hPprices a st
    unfold planStepFn
    rw [hsp]
  have hfold : foldStop (planStepFn (fetchProductsWithPrices st)) cfg.plans {} st
      = ({}, st, none) :=
    foldStop_noop _ st cfg.plans hplanstep {}
  simp only [Sync]
  rw [hfold, haddons, hpromos]
  rfl

/-- C1 counterexample: against the remote state its own first run produced
(from an empty account), a second apply is not mutation-free — a per-unit
price, a flat one-time price and a flat quarterly price are each created
again; an addon whose name does not normalize to its id is created again;
and an active promotion produces an already-exists warning. -/
theorem c1_counterexample :
    (Sync perUnitCfg (Sync perUnitCfg emptySt).2.1).1.pricesCreated = 1 ∧
    (Sync oneTimeCfg (Sync oneTimeCfg emptySt).2.1).1.pricesCreated = 1 ∧
    (Sync quarterlyCfg (Sync quarterlyCfg emptySt).2.1).1.pricesCreated = 1 ∧
    (Sync addonMismatchCfg (Sync addonMismatchCfg emptySt).2.1).1.addonsCreated = 1 ∧
    (Sync promoCfg (Sync promoCfg emptySt).2.1).1.warnings ≠ [] := by
  decide

/-- C1 (amended): starting from an empty remote account, for a catalog with
distinct plan ids, no addons, no promotions, only flat prices on the
monthly / yearly intervals, and no custom metadata entry shadowing
`plan_code`, the first apply succeeds and a second apply against the state
it produced performs zero mutations: every counter of the second
`SyncResult` is zero, no warning is emitted, and the remote state is
untouched.  (Per-unit, tiered, quarterly and one-time prices are re-created
on every run, addons are re-created unless names normalize alike, and
active promotions warn — see the counterexample.) -/
theorem sync_flat_idempotent (cfg : BillingConfig)
    (haddons : cfg.addons = []) (hpromos : cfg.promotions = [])
    (hnodup : (cfg.plans.map Plan.id).Nodup)
    (hflat : ∀ plan ∈ cfg.plans, FlatPlan plan) :
    (Sync cfg emptySt).2.2 = none ∧
    Sync cfg (Sync cfg emptySt).2.1 = ({}, (Sync cfg emptySt).2.1, none) := by
  obtain ⟨acc', st', newProds, heq, hprod, hprices, hfor, hexist⟩ :=
    run1_fold cfg.plans hflat {} emptySt
  have heqW : foldStop (planStepFn (fetchProductsWithPrices emptySt)) cfg.plans {} emptySt
      = (acc', st', none) := by
    refine foldStop_congr_none (fun plan a s => syncPlan plan [] a s)
      (planStepFn (fetchProductsWithPrices emptySt)) ?_ cfg.plans {} emptySt acc' st' heq
    intro x a s a' s' h
    unfold planStepFn
    have h2 : syncPlan x (fetchProductsWithPrices emptySt) a s = (a', s', none) := h
    rw [h2]
  have hS1 : Sync cfg emptySt = (acc', st', none) := by
    simp only [Sync]
    rw [heqW, haddons, hpromos]
    rfl
  have hsync : SyncedState cfg.plans st' := by
    refine ⟨?_, ?_, ?_⟩
    · intro plan hplan
      obtain ⟨prodR, hprodR, hp⟩ := hexist plan hplan
      refine ⟨prodR, ?_, hp⟩
      rw [hprod]
      exact hprodR
    · intro prodR hpr
      rw [hprod] at hpr
      obtain ⟨plan, hplan, h1, h2, h3, h4⟩ := hfor prodR hpr
      exact ⟨plan.id, h2⟩
    · intro prodR hpr c hc
      rw [hprod] at hpr
      obtain ⟨plan, hplan, h1, h2, h3, h4⟩ := hfor prodR hpr
      have hcc : c = plan.id := by
        rw [hc] at h2
        exact Option.some.inj h2
      exact ⟨plan, hplan, hcc.symm, h3, h4⟩
  have hS2 := sync_noop cfg st' haddons hpromos hnodup hflat hsync
  constructor
  · rw [hS1]
  · rw [hS1]
    exact hS2

/-- Witness for C1's amended idempotence at a one-plan flat-monthly
catalog. -/
theorem sync_flat_idempotent_witness :
    (Sync flatMonthlyCfg emptySt).2.2 = none ∧
    Sync flatMonthlyCfg (Sync flatMonthlyCfg emptySt).2.1 =
      ({}, (Sync flatMonthlyCfg emptySt).2.1, none) :=
  sync_flat_idempotent flatMonthlyCfg rfl rfl (by decide) (by decide)

end Raterunner
